import Mathlib

/-!
Verification of the concurrent-edit reconciliation core of the
cleaning-tool-cal application (src/src/App.tsx): the RSVP engine
(handleScheduleVote), the poll engine (handleVote, whose multi-select
branch is the toggleOption operation of the specification and whose
single-select branch is selectOption) and dynamic option addition
(addOptionToPoll), together with the data model they operate on.

JavaScript Record objects (string-keyed maps with insertion order and
unique keys) are modelled as association lists; membership arrays as
lists of strings; vote counters as Nat, with the clamping
Math.max(0, x - 1) of the source matching truncated Nat subtraction.
Each local constant of the source functions is modelled by a named
definition so that theorems can speak about the intermediate values.
-/

namespace CleaningTool

/-- Lookup in an association list: value of the first pair whose key
matches, mirroring property access on a JS object. -/
def lookupA {α : Type} (l : List (String × α)) (k : String) : Option α :=
  (l.find? (fun p => p.1 = k)).map (·.2)

/-- JS object update m[k] = v (or spread with an override): replace the
value at an existing key in place, otherwise append the new pair. -/
def setA {α : Type} (l : List (String × α)) (k : String) (v : α) :
    List (String × α) :=
  if l.any (fun p => p.1 = k) then
    l.map (fun p => if p.1 = k then (k, v) else p)
  else l ++ [(k, v)]

/-- JS delete m[k]: drop every pair with the given key. -/
def eraseA {α : Type} (l : List (String × α)) (k : String) :
    List (String × α) :=
  l.filter (fun p => p.1 ≠ k)

/-- Iteration order of a JS Set built from a list: deduplication keeping
the first occurrence of each element. -/
def dedupFirst (l : List String) : List String :=
  l.foldl (fun acc x => if x ∈ acc then acc else acc ++ [x]) []

/-- ScheduleResponse from App.tsx. -/
inductive ScheduleResponse where
  | attend
  | notAttend
  | undecided
deriving DecidableEq

/-- The Schedule interface of App.tsx, restricted to the fields the
RSVP engine reads or writes; absent optional arrays are represented by
the empty list, matching the `|| []` defaulting at the use site. -/
@[ext] structure Schedule where
  id : String
  title : String
  date : String
  attendees : List String
  notAttendees : List String
  undecided : List String
  attendeeDisplayNames : List (String × String)
deriving DecidableEq

/-- The removeByName closure of handleScheduleVote: drop every identity
whose recorded display name equals the acting one. -/
def removeByName (names : List (String × String)) (n : String)
    (arr : List String) : List String :=
  arr.filter (fun u => ¬ (lookupA names u = some n))

/-- Whether some identity of the array is recorded under the name. -/
def hasName (names : List (String × String)) (n : String)
    (arr : List String) : Bool :=
  arr.any (fun u => lookupA names u = some n)

/-- The wasAlreadySelected test of handleScheduleVote: the response
being cast is already held by some identity recorded under the acting
display name. -/
def wasAlreadySelected (s : Schedule) (n : String)
    (r : ScheduleResponse) : Bool :=
  match r with
  | ScheduleResponse.attend => hasName s.attendeeDisplayNames n s.attendees
  | ScheduleResponse.notAttend => hasName s.attendeeDisplayNames n s.notAttendees
  | ScheduleResponse.undecided => hasName s.attendeeDisplayNames n s.undecided

/-- Rebuilding of the display-name map of handleScheduleVote: one entry
per identity still present in some set, the acting identity mapped to
the acting name, the others to their previous nonempty recorded name. -/
def rebuildNames (names : List (String × String)) (uid n : String)
    (allUids : List String) : List (String × String) :=
  allUids.filterMap (fun u =>
    if u = uid then some (u, n)
    else (lookupA names u).bind (fun m => if m = "" then none else some (u, m)))

/-- The newAttendees value of handleScheduleVote: first the purge of
the acting display name, then the conditional append of the acting
identity when the response is attend and was not already selected. -/
def castAttendees (s : Schedule) (uid n : String)
    (r : ScheduleResponse) : List String :=
  if wasAlreadySelected s n r = false ∧ r = ScheduleResponse.attend then
    removeByName s.attendeeDisplayNames n s.attendees ++ [uid]
  else removeByName s.attendeeDisplayNames n s.attendees

/-- The newNotAttendees value of handleScheduleVote. -/
def castNotAttendees (s : Schedule) (uid n : String)
    (r : ScheduleResponse) : List String :=
  if wasAlreadySelected s n r = false ∧ r = ScheduleResponse.notAttend then
    removeByName s.attendeeDisplayNames n s.notAttendees ++ [uid]
  else removeByName s.attendeeDisplayNames n s.notAttendees

/-- The newUndecided value of handleScheduleVote. -/
def castUndecided (s : Schedule) (uid n : String)
    (r : ScheduleResponse) : List String :=
  if wasAlreadySelected s n r = false ∧ r = ScheduleResponse.undecided then
    removeByName s.attendeeDisplayNames n s.undecided ++ [uid]
  else removeByName s.attendeeDisplayNames n s.undecided

/-- The allUids set of handleScheduleVote: identities remaining in some
set after the update, in JS Set insertion order. -/
def castAllUids (s : Schedule) (uid n : String)
    (r : ScheduleResponse) : List String :=
  dedupFirst (castAttendees s uid n r ++ castNotAttendees s uid n r ++
    castUndecided s uid n r)

/-- The handleScheduleVote function of App.tsx (the castResponse
operation of the specification): purge every identity recorded under
the acting display name from the three sets, toggle off when the same
response was already selected under that name, otherwise append the
acting identity to the matching set, and rebuild the display-name map
over the identities remaining in any set.  The userDisplayName guard
mirrors the early return of the source. -/
def castResponse (s : Schedule) (uid : String) (n : String)
    (r : ScheduleResponse) : Schedule :=
  if n = "" then s else
  { s with
    attendees := castAttendees s uid n r
    notAttendees := castNotAttendees s uid n r
    undecided := castUndecided s uid n r
    attendeeDisplayNames :=
      rebuildNames s.attendeeDisplayNames uid n (castAllUids s uid n r) }

/-- The PollOption interface of App.tsx. -/
structure PollOption where
  id : String
  text : String
  votes : Nat
deriving DecidableEq

/-- The Poll interface of App.tsx, restricted to the fields the poll
engine reads or writes; absent optional structures are represented by
empty lists, matching the `|| []` / `|| {}` defaulting at the use site. -/
@[ext] structure Poll where
  id : String
  question : String
  options : List PollOption
  totalVotes : Nat
  votedUsers : List String
  votedUserOptions : List (String × List String)
  voterDisplayNames : List (String × String)
  allowMultiple : Bool
  allowAddOptions : Bool
deriving DecidableEq

/-- The getMyPollSelectedIds helper of App.tsx: the selection recorded
for the first identity whose display name equals the acting one. -/
def getMyPollSelectedIds (poll : Poll) (n : String) : List String :=
  if n = "" then [] else
  match poll.voterDisplayNames.find? (fun p => p.2 = n) with
  | some p => (lookupA poll.votedUserOptions p.1).getD []
  | none => []

/-- The uidsToRemove constant of handleVote: every identity recorded in
the display-name map under the acting name. -/
def uidsToRemove (poll : Poll) (n : String) : List String :=
  (poll.voterDisplayNames.filter (fun q => q.2 = n)).map (·.1)

/-- The cleanVotedUsers constant of handleVote. -/
def cleanVotedUsers (poll : Poll) (n : String) : List String :=
  poll.votedUsers.filter (fun u => ¬ u ∈ uidsToRemove poll n)

/-- The cleanVotedUserOpts constant of handleVote: selections copied
over for the surviving voters that have one recorded. -/
def cleanVotedUserOpts (poll : Poll) (n : String) :
    List (String × List String) :=
  (cleanVotedUsers poll n).filterMap
    (fun u => (lookupA poll.votedUserOptions u).map (fun sel => (u, sel)))

/-- The cleanVoterNames constant of handleVote: nonempty display names
copied over for the surviving voters. -/
def cleanVoterNames (poll : Poll) (n : String) : List (String × String) :=
  (cleanVotedUsers poll n).filterMap
    (fun u => (lookupA poll.voterDisplayNames u).bind
      (fun m => if m = "" then none else some (u, m)))

/-- The mutation `opt.votes = Math.max(0, opt.votes - 1)` applied to the
object returned by options.find: decrement the first option carrying
the given id, leaving the list unchanged when no option matches. -/
def decFirst : List PollOption → String → List PollOption
  | [], _ => []
  | opt :: rest, oid =>
    if opt.id = oid then { opt with votes := opt.votes - 1 } :: rest
    else opt :: decFirst rest oid

/-- The purge loop of handleVote: for every identity being removed,
roll back one vote from each option of its recorded selection. -/
def purgeVotes (options : List PollOption) (uids : List String)
    (votedUserOpts : List (String × List String)) : List PollOption :=
  uids.foldl
    (fun acc uid =>
      ((lookupA votedUserOpts uid).getD []).foldl
        (fun a oid => decFirst a oid) acc)
    options

/-- The options array of handleVote after the purge loop ran. -/
def purgedOptions (poll : Poll) (n : String) : List PollOption :=
  purgeVotes poll.options (uidsToRemove poll n) poll.votedUserOptions

/-- The effectiveSelectedIds constant of handleVote: empty when the
acting identity is itself being purged, otherwise its surviving
recorded selection. -/
def effectiveSelectedIds (poll : Poll) (uid n : String) : List String :=
  if uid ∈ uidsToRemove poll n then []
  else (lookupA (cleanVotedUserOpts poll n) uid).getD []

/-- The newSelectedIds value of the multi-select branch: the effective
selection with the clicked option removed when already present,
appended otherwise. -/
def multiNewSelectedIds (poll : Poll) (uid n optionId : String) :
    List String :=
  if optionId ∈ effectiveSelectedIds poll uid n then
    (effectiveSelectedIds poll uid n).filter (fun i => i ≠ optionId)
  else effectiveSelectedIds poll uid n ++ [optionId]

/-- The newVotedUsers value of the multi-select branch. -/
def multiNewVotedUsers (poll : Poll) (uid n optionId : String) :
    List String :=
  if (multiNewSelectedIds poll uid n optionId).length > 0 ∧
      ¬ uid ∈ cleanVotedUsers poll n then
    cleanVotedUsers poll n ++ [uid]
  else if (multiNewSelectedIds poll uid n optionId).length = 0 then
    (cleanVotedUsers poll n).filter (fun i => i ≠ uid)
  else cleanVotedUsers poll n

/-- The finalVoterNames value of the multi-select branch: the acting
name recorded when the new selection is nonempty, then every entry for
an identity no longer voting deleted. -/
def multiFinalVoterNames (poll : Poll) (uid n optionId : String) :
    List (String × String) :=
  (if (multiNewSelectedIds poll uid n optionId).length > 0 then
      setA (cleanVoterNames poll n) uid n
    else cleanVoterNames poll n).filter
    (fun e => e.1 ∈ multiNewVotedUsers poll uid n optionId)

/-- The multi-select branch of handleVote (the toggleOption operation
of the specification). -/
def handleVoteMulti (poll : Poll) (uid n optionId : String) : Poll :=
  { poll with
    options := (purgedOptions poll n).map (fun opt =>
      if opt.id = optionId then
        { opt with votes :=
            if optionId ∈ effectiveSelectedIds poll uid n then opt.votes - 1
            else opt.votes + 1 }
      else opt)
    totalVotes :=
      if optionId ∈ effectiveSelectedIds poll uid n then
        ((purgedOptions poll n).map (·.votes)).sum - 1
      else ((purgedOptions poll n).map (·.votes)).sum + 1
    votedUserOptions := setA (cleanVotedUserOpts poll n) uid
      (multiNewSelectedIds poll uid n optionId)
    votedUsers := multiNewVotedUsers poll uid n optionId
    voterDisplayNames := multiFinalVoterNames poll uid n optionId }

/-- The prevOptionId value of the single-select branch: head of the
display-name-based current selection. -/
def singlePrevOptionId (poll : Poll) (n : String) : Option String :=
  (getMyPollSelectedIds poll n).head?

/-- The isChangingVote test of the single-select branch combined with
the truthiness test on prevOptionId: the source treats both undefined
and the empty string as falsy. -/
def singleIsChanging (poll : Poll) (uid n : String) : Prop :=
  (effectiveSelectedIds poll uid n).length > 0 ∧
  ¬ singlePrevOptionId poll n = none ∧ ¬ singlePrevOptionId poll n = some ""

instance (poll : Poll) (uid n : String) :
    Decidable (singleIsChanging poll uid n) := by
  unfold singleIsChanging
  infer_instance

/-- The single-select branch of handleVote (the selectOption operation
of the specification). -/
def handleVoteSingle (poll : Poll) (uid n optionId : String) : Poll :=
  if singlePrevOptionId poll n = some optionId then
    { poll with
      options := purgedOptions poll n
      totalVotes := ((purgedOptions poll n).map (·.votes)).sum
      votedUserOptions := eraseA (cleanVotedUserOpts poll n) uid
      votedUsers := (cleanVotedUsers poll n).filter (fun i => i ≠ uid)
      voterDisplayNames := eraseA (cleanVoterNames poll n) uid }
  else
    { poll with
      options :=
        if singleIsChanging poll uid n then
          (purgedOptions poll n).map (fun opt =>
            if opt.id = (singlePrevOptionId poll n).getD "" then
              { opt with votes := opt.votes - 1 }
            else if opt.id = optionId then
              { opt with votes := opt.votes + 1 }
            else opt)
        else
          (purgedOptions poll n).map (fun opt =>
            if opt.id = optionId then { opt with votes := opt.votes + 1 }
            else opt)
      totalVotes :=
        if singleIsChanging poll uid n then
          ((purgedOptions poll n).map (·.votes)).sum
        else ((purgedOptions poll n).map (·.votes)).sum + 1
      votedUserOptions := setA (cleanVotedUserOpts poll n) uid [optionId]
      votedUsers :=
        if uid ∈ cleanVotedUsers poll n then cleanVotedUsers poll n
        else cleanVotedUsers poll n ++ [uid]
      voterDisplayNames := setA (cleanVoterNames poll n) uid n }

/-- The handleVote function of App.tsx: dispatch on allowMultiple after
the userDisplayName guard that mirrors the early return of the source. -/
def handleVote (poll : Poll) (uid n optionId : String) : Poll :=
  if n = "" then poll
  else if poll.allowMultiple then handleVoteMulti poll uid n optionId
  else handleVoteSingle poll uid n optionId

/-- The JS String.prototype.trim operation used by addOptionToPoll:
drop whitespace characters from both ends, written over the character
list so that it is computable by the kernel. -/
def jsTrim (s : String) : String :=
  String.mk (((s.data.dropWhile Char.isWhitespace).reverse.dropWhile
    Char.isWhitespace).reverse)

/-- The addOptionToPoll function of App.tsx: append a fresh zero-vote
option whose id embeds the current time Date.now(), modelled by the
explicit parameter now; the guards on an empty trimmed text and on
allowAddOptions mirror the early returns of the source. -/
def addOptionToPoll (poll : Poll) (text : String) (now : Nat) : Poll :=
  if jsTrim text = "" then poll
  else if ¬ poll.allowAddOptions then poll
  else
    { poll with
      options := poll.options ++
        [{ id := "opt-" ++ toString now, text := jsTrim text, votes := 0 }] }

/-- Number of votes the identities of a list contribute to one option:
the sum, over the list, of the multiplicity of the option in each
identity's recorded selection. -/
def selCount (users : List String) (opts : List (String × List String))
    (o : String) : Nat :=
  (users.map (fun u => ((lookupA opts u).getD []).count o)).sum

/-- Vote count recorded for the first option carrying a given id. -/
def votesFor (poll : Poll) (o : String) : Nat :=
  ((poll.options.find? (fun opt => opt.id = o)).map (·.votes)).getD 0

/-- Sum of the vote counters over all options of a poll. -/
def sumVotes (poll : Poll) : Nat := (poll.options.map (·.votes)).sum

/-- Sum of the selection sizes over all entries of votedUserOptions. -/
def sumSelections (poll : Poll) : Nat :=
  (poll.votedUserOptions.map (fun e => e.2.length)).sum

/-- Well-formedness of a poll document, as established by poll creation
and maintained by the engine in normal operation: option ids and voter
lists are duplicate-free, the display-name map is keyed by voters and
total on them with nonempty names, every voter carries a nonempty
duplicate-free selection of existing options, each vote counter counts
the voters currently selecting that option, and totalVotes is the sum
of the counters. -/
structure PollWF (p : Poll) : Prop where
  idsNodup : (p.options.map (·.id)).Nodup
  usersNodup : p.votedUsers.Nodup
  namesKeysNodup : (p.voterDisplayNames.map (·.1)).Nodup
  namesKeysSub : ∀ q ∈ p.voterDisplayNames, q.1 ∈ p.votedUsers
  userNamed : ∀ u ∈ p.votedUsers,
    (lookupA p.voterDisplayNames u).getD "" ≠ ""
  userSelNonempty : ∀ u ∈ p.votedUsers,
    (lookupA p.votedUserOptions u).getD [] ≠ []
  userSelNodup : ∀ u ∈ p.votedUsers,
    ((lookupA p.votedUserOptions u).getD []).Nodup
  userSelValid : ∀ u ∈ p.votedUsers,
    ∀ o ∈ (lookupA p.votedUserOptions u).getD [], o ∈ p.options.map (·.id)
  votesCount : ∀ opt ∈ p.options,
    opt.votes = selCount p.votedUsers p.votedUserOptions opt.id
  totalSum : p.totalVotes = sumVotes p

/-- The three RSVP sets of an event are pairwise disjoint. -/
def rsvpDisjoint (s : Schedule) : Prop :=
  (∀ u ∈ s.attendees, ¬ u ∈ s.notAttendees) ∧
  (∀ u ∈ s.attendees, ¬ u ∈ s.undecided) ∧
  (∀ u ∈ s.notAttendees, ¬ u ∈ s.undecided)

instance (s : Schedule) : Decidable (rsvpDisjoint s) := by
  unfold rsvpDisjoint
  infer_instance

/-- Combined membership of a display name across the three RSVP sets,
counting every slot whose identity is recorded under that name. -/
def nameCount (s : Schedule) (n : String) : Nat :=
  ((s.attendees ++ s.notAttendees ++ s.undecided).filter
    (fun u => lookupA s.attendeeDisplayNames u = some n)).length

/-! Helper lemmas about the association-list model. -/

theorem lookupA_eq_some_mem {α : Type} {l : List (String × α)} {k : String}
    {v : α} (h : lookupA l k = some v) : (k, v) ∈ l := by
  unfold lookupA at h
  rcases hf : l.find? (fun p => p.1 = k) with _ | p
  · rw [hf] at h; cases h
  · rw [hf] at h
    have hm := List.find?_some hf
    have hmem := List.mem_of_find?_eq_some hf
    simp only [Option.map_some', Option.some.injEq] at h
    simp only [decide_eq_true_eq] at hm
    have : p = (k, v) := by
      cases p; simp_all
    rwa [this] at hmem

theorem lookupA_eq_some_iff {α : Type} {l : List (String × α)}
    (hnd : (l.map (·.1)).Nodup) {k : String} {v : α} :
    lookupA l k = some v ↔ (k, v) ∈ l := by
  constructor
  · exact lookupA_eq_some_mem
  · intro hmem
    induction l with
    | nil => cases hmem
    | cons a rest ih =>
      simp only [List.map_cons, List.nodup_cons] at hnd
      rcases List.mem_cons.mp hmem with heq | hrest
      · subst heq
        unfold lookupA
        rw [List.find?_cons_of_pos _ (by simp)]
        rfl
      · by_cases hak : a.1 = k
        · exfalso
          apply hnd.1
          rw [hak]
          exact List.mem_map.mpr ⟨(k, v), hrest, rfl⟩
        · unfold lookupA
          rw [List.find?_cons_of_neg _ (by simp [hak])]
          exact ih hnd.2 hrest

theorem lookupA_append {α : Type} (l1 l2 : List (String × α)) (k : String) :
    lookupA (l1 ++ l2) k =
      match lookupA l1 k with
      | some v => some v
      | none => lookupA l2 k := by
  induction l1 with
  | nil => simp [lookupA]
  | cons a rest ih =>
    by_cases hak : a.1 = k
    · unfold lookupA
      rw [List.cons_append, List.find?_cons_of_pos _ (by simp [hak]),
        List.find?_cons_of_pos _ (by simp [hak])]
      rfl
    · unfold lookupA at ih ⊢
      rw [List.cons_append, List.find?_cons_of_neg _ (by simp [hak]),
        List.find?_cons_of_neg _ (by simp [hak])]
      exact ih

theorem lookupA_setA_self {α : Type} (l : List (String × α)) (k : String)
    (v : α) : lookupA (setA l k v) k = some v := by
  unfold setA
  split
  · rename_i hany
    induction l with
    | nil => cases hany
    | cons a rest ih =>
      by_cases hak : a.1 = k
      · unfold lookupA
        rw [List.map_cons, if_pos hak, List.find?_cons_of_pos _ (by simp)]
        rfl
      · unfold lookupA at ih ⊢
        rw [List.map_cons, if_neg hak, List.find?_cons_of_neg _ (by simp [hak])]
        apply ih
        simp only [List.any_cons, Bool.or_eq_true, decide_eq_true_eq] at hany
        rcases hany with h | h
        · exact absurd h hak
        · exact h
  · rename_i hany
    have hnone : lookupA l k = none := by
      unfold lookupA
      have hfind : l.find? (fun p => p.1 = k) = none := by
        rw [List.find?_eq_none]
        intro p hp
        simp only [List.any_eq_true, decide_eq_true_eq] at hany
        simp only [decide_eq_true_eq]
        exact fun hc => hany ⟨p, hp, hc⟩
      rw [hfind]
      rfl
    rw [lookupA_append, hnone]
    show lookupA [(k, v)] k = some v
    unfold lookupA
    rw [List.find?_cons_of_pos _ (by simp)]
    rfl

theorem lookupA_setA_ne {α : Type} (l : List (String × α)) (k : String)
    (v : α) (k2 : String) (h : k2 ≠ k) :
    lookupA (setA l k v) k2 = lookupA l k2 := by
  unfold setA
  split
  · rename_i hany
    clear hany
    induction l with
    | nil => rfl
    | cons a rest ih =>
      by_cases hak : a.1 = k
      · unfold lookupA at ih ⊢
        rw [List.map_cons, if_pos hak,
          List.find?_cons_of_neg _ (by simp [Ne.symm h]),
          List.find?_cons_of_neg _ (by simp [hak, Ne.symm h, h])]
        exact ih
      · by_cases hak2 : a.1 = k2
        · unfold lookupA
          rw [List.map_cons, if_neg hak, List.find?_cons_of_pos _ (by simp [hak2]),
            List.find?_cons_of_pos _ (by simp [hak2])]
        · unfold lookupA at ih ⊢
          rw [List.map_cons, if_neg hak,
            List.find?_cons_of_neg _ (by simp [hak2]),
            List.find?_cons_of_neg _ (by simp [hak2])]
          exact ih
  · rw [lookupA_append]
    rcases hl : lookupA l k2 with _ | w
    · unfold lookupA
      rw [List.find?_cons_of_neg _ (by simp [Ne.symm h])]
      rfl
    · rfl

theorem lookupA_eraseA_self {α : Type} (l : List (String × α)) (k : String) :
    lookupA (eraseA l k) k = none := by
  have hfind : (eraseA l k).find? (fun p => p.1 = k) = none := by
    rw [List.find?_eq_none]
    intro p hp
    simp only [eraseA] at hp
    rcases List.mem_filter.mp hp with ⟨_, hpk⟩
    simpa using hpk
  unfold lookupA
  rw [hfind]
  rfl

theorem lookupA_eraseA_ne {α : Type} (l : List (String × α)) (k k2 : String)
    (h : k2 ≠ k) : lookupA (eraseA l k) k2 = lookupA l k2 := by
  induction l with
  | nil => rfl
  | cons a rest ih =>
    by_cases hak : a.1 = k
    · have : eraseA (a :: rest) k = eraseA rest k := by
        unfold eraseA
        rw [List.filter_cons, if_neg (by simp [hak])]
      rw [this, ih]
      unfold lookupA
      rw [List.find?_cons_of_neg _ (by simp [hak, Ne.symm h])]
    · have : eraseA (a :: rest) k = a :: eraseA rest k := by
        unfold eraseA
        rw [List.filter_cons, if_pos (by simp [hak])]
      rw [this]
      by_cases hak2 : a.1 = k2
      · unfold lookupA
        rw [List.find?_cons_of_pos _ (by simp [hak2]),
          List.find?_cons_of_pos _ (by simp [hak2])]
      · unfold lookupA at ih ⊢
        rw [List.find?_cons_of_neg _ (by simp [hak2]),
          List.find?_cons_of_neg _ (by simp [hak2])]
        exact ih

theorem mem_foldl_dedup (l : List String) :
    ∀ (acc : List String) (x : String),
      (x ∈ l.foldl (fun acc x => if x ∈ acc then acc else acc ++ [x]) acc) ↔
        x ∈ acc ∨ x ∈ l := by
  induction l with
  | nil => simp
  | cons y ys ih =>
    intro acc x
    rw [List.foldl_cons, ih]
    have : (x ∈ if y ∈ acc then acc else acc ++ [y]) ↔ x ∈ acc ∨ x = y := by
      split
      · rename_i hy
        constructor
        · exact Or.inl
        · rintro (h | rfl)
          · exact h
          · exact hy
      · simp
    rw [this]
    simp only [List.mem_cons]
    tauto

theorem mem_dedupFirst {l : List String} {x : String} :
    x ∈ dedupFirst l ↔ x ∈ l := by
  unfold dedupFirst
  rw [mem_foldl_dedup]
  simp

theorem nodup_foldl_dedup (l : List String) :
    ∀ acc : List String, acc.Nodup →
      (l.foldl (fun acc x => if x ∈ acc then acc else acc ++ [x]) acc).Nodup := by
  induction l with
  | nil => intro acc h; simpa
  | cons y ys ih =>
    intro acc h
    rw [List.foldl_cons]
    apply ih
    split
    · exact h
    · rename_i hy
      rw [List.nodup_append]
      exact ⟨h, List.nodup_singleton y, by
        intro a ha hb
        rw [List.mem_singleton] at hb
        subst hb
        exact hy ha⟩

theorem nodup_dedupFirst (l : List String) : (dedupFirst l).Nodup :=
  nodup_foldl_dedup l [] List.nodup_nil

theorem lookupA_filterMap_eq {α : Type} (l : List String)
    (f : String → Option (String × α))
    (hf : ∀ x p, f x = some p → p.1 = x) (k : String) :
    lookupA (l.filterMap f) k =
      if k ∈ l then (f k).map (·.2) else none := by
  induction l with
  | nil => simp [lookupA]
  | cons x xs ih =>
    rcases hfx : f x with _ | p
    · rw [List.filterMap_cons_none hfx, ih]
      by_cases hkx : k = x
      · subst hkx
        simp [hfx]
      · simp [List.mem_cons, hkx]
    · have hpx : p.1 = x := hf x p hfx
      rw [List.filterMap_cons_some hfx]
      by_cases hkx : k = x
      · subst hkx
        unfold lookupA
        rw [List.find?_cons_of_pos _ (by simp [hpx])]
        simp [hfx]
      · unfold lookupA at ih ⊢
        rw [List.find?_cons_of_neg _ (by simp [hpx, Ne.symm hkx])]
        rw [ih]
        simp [List.mem_cons, hkx]

theorem lookupA_filterMap_of_not_mem {α : Type} (l : List String)
    (f : String → Option (String × α))
    (hf : ∀ x p, f x = some p → p.1 = x) (k : String) (hk : ¬ k ∈ l) :
    lookupA (l.filterMap f) k = none := by
  rw [lookupA_filterMap_eq l f hf k, if_neg hk]

/-! Helper lemmas about vote counters and list sums. -/

theorem decFirst_map_id (l : List PollOption) (oid : String) :
    (decFirst l oid).map (·.id) = l.map (·.id) := by
  induction l with
  | nil => rfl
  | cons opt rest ih =>
    unfold decFirst
    split
    · simp
    · simp [ih]

theorem decFirst_eq_map (l : List PollOption) (oid : String)
    (h : (l.map (·.id)).Nodup) :
    decFirst l oid = l.map (fun opt =>
      if opt.id = oid then { opt with votes := opt.votes - 1 } else opt) := by
  induction l with
  | nil => rfl
  | cons opt rest ih =>
    simp only [List.map_cons, List.nodup_cons] at h
    unfold decFirst
    split
    · rename_i hid
      rw [List.map_cons, if_pos hid]
      have hrest : rest.map (fun opt2 =>
          if opt2.id = oid then { opt2 with votes := opt2.votes - 1 } else opt2)
          = rest.map (fun opt2 => opt2) := by
        apply List.map_congr_left
        intro a ha
        rw [if_neg]
        intro hc
        exact h.1 (hid ▸ hc ▸ List.mem_map.mpr ⟨a, ha, rfl⟩)
      rw [hrest, List.map_id']
    · rename_i hid
      rw [List.map_cons, if_neg hid, ih h.2]

theorem foldl_decFirst_eq_map (sel : List String) (l : List PollOption)
    (h : (l.map (·.id)).Nodup) :
    sel.foldl (fun a oid => decFirst a oid) l =
      l.map (fun opt => { opt with votes := opt.votes - sel.count opt.id }) := by
  induction sel generalizing l with
  | nil =>
    simp only [List.foldl_nil, List.count_nil, Nat.sub_zero]
    exact (List.map_id' l).symm
  | cons o sel ih =>
    rw [List.foldl_cons, decFirst_eq_map l o h,
      ih _ (by rw [← decFirst_eq_map l o h, decFirst_map_id]; exact h),
      List.map_map]
    apply List.map_congr_left
    intro a _
    simp only [Function.comp]
    by_cases hao : a.id = o
    · rw [if_pos hao]
      have hc : (o :: sel).count a.id = sel.count a.id + 1 := by
        rw [List.count_cons, if_pos (by simp [hao])]
      simp only [PollOption.mk.injEq, hc, eq_self_iff_true, true_and]
      omega
    · rw [if_neg hao]
      have hc : (o :: sel).count a.id = sel.count a.id := by
        rw [List.count_cons, if_neg (by simp [Ne.symm hao]), Nat.add_zero]
      simp [hc]

theorem purgeVotes_eq_map (options : List PollOption) (R : List String)
    (opts : List (String × List String))
    (h : (options.map (·.id)).Nodup) :
    purgeVotes options R opts = options.map (fun opt =>
      { opt with votes := opt.votes - selCount R opts opt.id }) := by
  induction R generalizing options with
  | nil =>
    unfold purgeVotes selCount
    simp only [List.foldl_nil, List.map_nil, List.sum_nil, Nat.sub_zero]
    exact (List.map_id' options).symm
  | cons r R ih =>
    unfold purgeVotes at ih ⊢
    rw [List.foldl_cons, foldl_decFirst_eq_map _ _ h,
      ih _ (by simp [List.map_map, Function.comp]; exact (by simpa using h)),
      List.map_map]
    apply List.map_congr_left
    intro a _
    simp only [Function.comp, PollOption.mk.injEq, eq_self_iff_true, true_and]
    have h2 : selCount (r :: R) opts a.id =
        ((lookupA opts r).getD []).count a.id + selCount R opts a.id := by
      unfold selCount
      rw [List.map_cons, List.sum_cons]
    omega

theorem sum_map_zero {α : Type} (l : List α) :
    (l.map (fun _ => (0 : Nat))).sum = 0 := by
  induction l with
  | nil => rfl
  | cons x xs ih => simp [ih]

theorem sum_map_addf {α : Type} (l : List α) (f g : α → Nat) :
    (l.map (fun x => f x + g x)).sum = (l.map f).sum + (l.map g).sum := by
  induction l with
  | nil => rfl
  | cons x xs ih =>
    simp only [List.map_cons, List.sum_cons, ih]
    omega

theorem sum_sum_swap {α β : Type} (l1 : List α) (l2 : List β)
    (f : α → β → Nat) :
    (l1.map (fun a => (l2.map (f a)).sum)).sum =
      (l2.map (fun b => (l1.map (fun a => f a b)).sum)).sum := by
  induction l1 with
  | nil =>
    simp only [List.map_nil, List.sum_nil]
    rw [← sum_map_zero l2]
    apply congrArg
    apply List.map_congr_left
    intro b _
    simp
  | cons a l1 ih =>
    simp only [List.map_cons, List.sum_cons, ih]
    rw [← sum_map_addf]

theorem sum_map_ite_one (l : List String) (x : String) :
    (l.map (fun o => if o = x then 1 else 0)).sum = l.count x := by
  induction l with
  | nil => rfl
  | cons y ys ih =>
    simp only [List.map_cons, List.sum_cons, ih, List.count_cons]
    by_cases hyx : y = x
    · rw [if_pos hyx, if_pos (by simp [hyx])]
      omega
    · rw [if_neg hyx, if_neg (by simp [hyx])]
      omega

theorem sum_count_eq_length (ids sel : List String) (hnd : ids.Nodup)
    (hsub : ∀ o ∈ sel, o ∈ ids) :
    (ids.map (fun o => sel.count o)).sum = sel.length := by
  induction sel with
  | nil =>
    simp only [List.count_nil, List.length_nil]
    exact sum_map_zero ids
  | cons s sel ih =>
    have hstep : ids.map (fun o => (s :: sel).count o) =
        ids.map (fun o => sel.count o + (if o = s then 1 else 0)) := by
      apply List.map_congr_left
      intro o _
      rw [List.count_cons]
      by_cases hos : o = s
      · rw [if_pos (by simp [hos]), if_pos hos]
      · rw [if_neg (by simp [Ne.symm hos]), if_neg hos]
    rw [hstep, sum_map_addf, ih (fun o ho => hsub o (List.mem_cons_of_mem _ ho)),
      sum_map_ite_one, List.count_eq_one_of_mem hnd (hsub s (List.mem_cons_self s sel))]
    simp

theorem sum_map_pointwise (C : List String) (hC : C.Nodup) (z : String)
    (hz : z ∈ C) (f g : String → Nat)
    (hfg : ∀ u ∈ C, u ≠ z → g u = f u) :
    (C.map g).sum + f z = (C.map f).sum + g z := by
  have hperm := List.perm_cons_erase hz
  have h1 : (C.map g).sum = g z + ((C.erase z).map g).sum := by
    rw [(hperm.map g).sum_eq]
    simp
  have h2 : (C.map f).sum = f z + ((C.erase z).map f).sum := by
    rw [(hperm.map f).sum_eq]
    simp
  have h3 : ((C.erase z).map g).sum = ((C.erase z).map f).sum := by
    apply congrArg
    apply List.map_congr_left
    intro u hu
    have := (hC.mem_erase_iff).mp hu
    exact hfg u this.2 this.1
  omega

theorem sum_map_filter_split {α : Type} (l : List α) (p : α → Bool)
    (g : α → Nat) :
    ((l.filter p).map g).sum + ((l.filter (fun x => !(p x))).map g).sum =
      (l.map g).sum := by
  induction l with
  | nil => rfl
  | cons x xs ih =>
    by_cases hx : p x = true
    · rw [List.filter_cons_of_pos hx, List.filter_cons_of_neg (by simp [hx])]
      simp only [List.map_cons, List.sum_cons]
      omega
    · rw [List.filter_cons_of_neg hx, List.filter_cons_of_pos (by simp at hx; simp [hx])]
      simp only [List.map_cons, List.sum_cons]
      omega

theorem sum_map_eq_of_mem_iff (l1 l2 : List String) (hn1 : l1.Nodup)
    (hn2 : l2.Nodup) (hmem : ∀ x, x ∈ l1 ↔ x ∈ l2) (g : String → Nat) :
    (l1.map g).sum = (l2.map g).sum :=
  (((List.perm_ext_iff_of_nodup hn1 hn2).mpr hmem).map g).sum_eq

/-! Bridging lemmas about the intermediate values of handleVote. -/

theorem filterMap_eq_map_of {α β : Type} (l : List α) (f : α → Option β)
    (g : α → β) (h : ∀ x ∈ l, f x = some (g x)) : l.filterMap f = l.map g := by
  induction l with
  | nil => rfl
  | cons x xs ih =>
    rw [List.filterMap_cons_some (h x (List.mem_cons_self x xs)), List.map_cons,
      ih (fun y hy => h y (List.mem_cons_of_mem x hy))]

theorem nodup_uidsToRemove (p : Poll) (n : String)
    (h : (p.voterDisplayNames.map (·.1)).Nodup) : (uidsToRemove p n).Nodup :=
  List.Nodup.sublist (List.Sublist.map _ (List.filter_sublist _)) h

theorem mem_uidsToRemove_lookup {p : Poll} {n u : String}
    (hnd : (p.voterDisplayNames.map (·.1)).Nodup) :
    u ∈ uidsToRemove p n ↔ lookupA p.voterDisplayNames u = some n := by
  rw [lookupA_eq_some_iff hnd]
  unfold uidsToRemove
  constructor
  · intro h
    rcases List.mem_map.mp h with ⟨e, he, heq⟩
    rcases List.mem_filter.mp he with ⟨hmem, hval⟩
    simp only [decide_eq_true_eq] at hval
    cases e
    simp_all
  · intro h
    exact List.mem_map.mpr ⟨(u, n), List.mem_filter.mpr ⟨h, by simp⟩, rfl⟩

theorem mem_uidsToRemove_sub {p : Poll} {n u : String}
    (hsub : ∀ q ∈ p.voterDisplayNames, q.1 ∈ p.votedUsers)
    (h : u ∈ uidsToRemove p n) : u ∈ p.votedUsers := by
  unfold uidsToRemove at h
  rcases List.mem_map.mp h with ⟨e, he, heq⟩
  exact heq ▸ hsub e (List.mem_filter.mp he).1

theorem mem_cleanVotedUsers {p : Poll} {n u : String} :
    u ∈ cleanVotedUsers p n ↔ u ∈ p.votedUsers ∧ ¬ u ∈ uidsToRemove p n := by
  unfold cleanVotedUsers
  simp [List.mem_filter]

theorem nodup_cleanVotedUsers (p : Poll) (n : String)
    (h : p.votedUsers.Nodup) : (cleanVotedUsers p n).Nodup :=
  List.Nodup.sublist (List.filter_sublist _) h

theorem lookupA_cleanVotedUserOpts (p : Poll) (n u : String) :
    lookupA (cleanVotedUserOpts p n) u =
      if u ∈ cleanVotedUsers p n then lookupA p.votedUserOptions u else none := by
  unfold cleanVotedUserOpts
  rw [lookupA_filterMap_eq _ _ ?hf u]
  case hf =>
    intro x pr hpr
    rcases hx : lookupA p.votedUserOptions x with _ | sel
    · rw [hx] at hpr; cases hpr
    · rw [hx] at hpr
      simp only [Option.map_some', Option.some.injEq] at hpr
      rw [← hpr]
  split
  · rcases lookupA p.votedUserOptions u with _ | sel <;> rfl
  · rfl

theorem cleanVotedUserOpts_eq_map (p : Poll) (n : String)
    (hsel : ∀ u ∈ p.votedUsers, (lookupA p.votedUserOptions u).getD [] ≠ []) :
    cleanVotedUserOpts p n = (cleanVotedUsers p n).map
      (fun u => (u, (lookupA p.votedUserOptions u).getD [])) := by
  unfold cleanVotedUserOpts
  apply filterMap_eq_map_of
  intro u hu
  have husers : u ∈ p.votedUsers := (mem_cleanVotedUsers.mp hu).1
  rcases hl : lookupA p.votedUserOptions u with _ | sel
  · exfalso
    apply hsel u husers
    rw [hl]
    rfl
  · simp [hl]

theorem purgedOptions_map_id (p : Poll) (n : String)
    (h : (p.options.map (·.id)).Nodup) :
    (purgedOptions p n).map (·.id) = p.options.map (·.id) := by
  unfold purgedOptions
  rw [purgeVotes_eq_map _ _ _ h, List.map_map]
  rfl

theorem selCount_split (p : Poll) (n : String) (hWF : PollWF p) (o : String) :
    selCount p.votedUsers p.votedUserOptions o =
      selCount (cleanVotedUsers p n) p.votedUserOptions o +
        selCount (uidsToRemove p n) p.votedUserOptions o := by
  unfold selCount
  have hsplit := sum_map_filter_split p.votedUsers
    (fun u => decide (¬ u ∈ uidsToRemove p n))
    (fun u => ((lookupA p.votedUserOptions u).getD []).count o)
  have hcompl : (p.votedUsers.filter
      (fun u => !(decide (¬ u ∈ uidsToRemove p n)))) =
      p.votedUsers.filter (fun u => u ∈ uidsToRemove p n) := by
    apply List.filter_congr
    intro x _
    simp [decide_not]
  rw [hcompl] at hsplit
  have hR : ((p.votedUsers.filter (fun u => u ∈ uidsToRemove p n)).map
      (fun u => ((lookupA p.votedUserOptions u).getD []).count o)).sum =
      ((uidsToRemove p n).map
        (fun u => ((lookupA p.votedUserOptions u).getD []).count o)).sum := by
    apply sum_map_eq_of_mem_iff
    · exact List.Nodup.sublist (List.filter_sublist _) hWF.usersNodup
    · exact nodup_uidsToRemove p n hWF.namesKeysNodup
    · intro x
      simp only [List.mem_filter, decide_eq_true_eq]
      exact ⟨fun h => h.2, fun h => ⟨mem_uidsToRemove_sub hWF.namesKeysSub h, h⟩⟩
  have hclean : ((cleanVotedUsers p n).map
      (fun u => ((lookupA p.votedUserOptions u).getD []).count o)).sum =
      ((p.votedUsers.filter (fun u => decide (¬ u ∈ uidsToRemove p n))).map
        (fun u => ((lookupA p.votedUserOptions u).getD []).count o)).sum := rfl
  omega

theorem purgedOptions_eq_selCount (p : Poll) (n : String) (hWF : PollWF p) :
    purgedOptions p n = p.options.map (fun opt =>
      { opt with votes :=
          selCount (cleanVotedUsers p n) p.votedUserOptions opt.id }) := by
  unfold purgedOptions
  rw [purgeVotes_eq_map _ _ _ hWF.idsNodup]
  apply List.map_congr_left
  intro opt hopt
  have h1 := hWF.votesCount opt hopt
  have h2 := selCount_split p n hWF opt.id
  simp only [PollOption.mk.injEq, eq_self_iff_true, true_and]
  omega

theorem sum_purgedOptions (p : Poll) (n : String) (hWF : PollWF p) :
    ((purgedOptions p n).map (·.votes)).sum =
      ((cleanVotedUsers p n).map
        (fun u => ((lookupA p.votedUserOptions u).getD []).length)).sum := by
  rw [purgedOptions_eq_selCount p n hWF, List.map_map]
  have h1 : (p.options.map ((·.votes) ∘ (fun opt =>
      { opt with votes :=
          selCount (cleanVotedUsers p n) p.votedUserOptions opt.id }))).sum =
      ((p.options.map (·.id)).map
        (fun o => selCount (cleanVotedUsers p n) p.votedUserOptions o)).sum := by
    rw [List.map_map]
    rfl
  rw [h1]
  unfold selCount
  rw [sum_sum_swap]
  apply congrArg
  apply List.map_congr_left
  intro u hu
  have husers : u ∈ p.votedUsers := (mem_cleanVotedUsers.mp hu).1
  exact sum_count_eq_length _ _ hWF.idsNodup (hWF.userSelValid u husers)

theorem effectiveSelectedIds_eq (p : Poll) (z n : String) :
    effectiveSelectedIds p z n =
      if z ∈ cleanVotedUsers p n then (lookupA p.votedUserOptions z).getD []
      else [] := by
  unfold effectiveSelectedIds
  by_cases hR : z ∈ uidsToRemove p n
  · rw [if_pos hR, if_neg (fun hc => (mem_cleanVotedUsers.mp hc).2 hR)]
  · rw [if_neg hR, lookupA_cleanVotedUserOpts]
    by_cases hC : z ∈ cleanVotedUsers p n
    · rw [if_pos hC, if_pos hC]
    · rw [if_neg hC, if_neg hC]
      rfl

theorem setA_map_of_mem {α : Type} (C : List String) (g : String → α)
    (z : String) (v : α) (hz : z ∈ C) :
    setA (C.map (fun u => (u, g u))) z v =
      C.map (fun u => if u = z then (z, v) else (u, g u)) := by
  unfold setA
  rw [if_pos (by
    simp only [List.any_eq_true]
    exact ⟨(z, g z), List.mem_map.mpr ⟨z, hz, rfl⟩, by simp⟩)]
  rw [List.map_map]
  apply List.map_congr_left
  intro u _
  simp only [Function.comp]

theorem setA_of_not_mem_keys {α : Type} (l : List (String × α)) (k : String)
    (v : α) (h : ∀ p ∈ l, ¬ p.1 = k) : setA l k v = l ++ [(k, v)] := by
  unfold setA
  rw [if_neg]
  simp only [List.any_eq_true, not_exists, not_and]
  intro p hp
  simpa using h p hp

/-! Concrete documents used by the evaluation theorems. -/

/-- A fresh multi-select poll with two options and no votes. -/
def freshMultiPoll : Poll :=
  { id := "p1", question := "q"
    options := [{ id := "o1", text := "A", votes := 0 },
                { id := "o2", text := "B", votes := 0 }]
    totalVotes := 0, votedUsers := [], votedUserOptions := []
    voterDisplayNames := [], allowMultiple := true, allowAddOptions := false }

/-- A multi-select poll satisfying the two counting equalities but not
the per-option counting invariant: o1 carries the single counted vote
while the single recorded selection is for o2. -/
def skewedMultiPoll : Poll :=
  { id := "p2", question := "q"
    options := [{ id := "o1", text := "A", votes := 1 },
                { id := "o2", text := "B", votes := 0 }]
    totalVotes := 1, votedUsers := ["v"], votedUserOptions := [("v", ["o2"])]
    voterDisplayNames := [("v", "N")], allowMultiple := true
    allowAddOptions := false }

/-- A single-select poll whose recorded vote for X was never counted:
the voter selected X but the X counter is zero. -/
def zeroCountSinglePoll : Poll :=
  { id := "p3", question := "q"
    options := [{ id := "X", text := "A", votes := 0 },
                { id := "Y", text := "B", votes := 0 }]
    totalVotes := 0, votedUsers := ["z"], votedUserOptions := [("z", ["X"])]
    voterDisplayNames := [("z", "N")], allowMultiple := false
    allowAddOptions := false }

/-- A single-select poll in which voter z holds a counted vote for X. -/
def transferPoll : Poll :=
  { id := "p6", question := "q"
    options := [{ id := "X", text := "A", votes := 1 },
                { id := "Y", text := "B", votes := 0 }]
    totalVotes := 1, votedUsers := ["z"], votedUserOptions := [("z", ["X"])]
    voterDisplayNames := [("z", "N")], allowMultiple := false
    allowAddOptions := false }

/-- A multi-select poll that allows adding options. -/
def addablePoll : Poll :=
  { freshMultiPoll with id := "p4", allowAddOptions := true }

/-- A multi-select poll carrying a voter with an empty recorded
selection. -/
def emptySelPoll : Poll :=
  { id := "p5", question := "q"
    options := [{ id := "o1", text := "A", votes := 0 }]
    totalVotes := 0, votedUsers := ["v"], votedUserOptions := [("v", [])]
    voterDisplayNames := [("v", "B")], allowMultiple := true
    allowAddOptions := false }

/-- An event whose only attendee a is recorded under display name X. -/
def staleNameEvent : Schedule :=
  { id := "s1", title := "t", date := "d"
    attendees := ["a"], notAttendees := [], undecided := []
    attendeeDisplayNames := [("a", "X")] }

/-- An event with identity a attending and identity b not attending,
both recorded under the display name 지운. -/
def twoDeviceEvent : Schedule :=
  { id := "s2", title := "t", date := "d"
    attendees := ["a"], notAttendees := ["b"], undecided := []
    attendeeDisplayNames := [("a", "지운"), ("b", "지운")] }

/-- An event whose only attendee u is recorded under display name A. -/
def attendingEvent : Schedule :=
  { id := "s3", title := "t", date := "d"
    attendees := ["u"], notAttendees := [], undecided := []
    attendeeDisplayNames := [("u", "A")] }

/-! Evaluation theorems for the claims about concrete documents. -/

/-- C1: the claim states that in multi-select mode the new selection is
the pre-purge selection XOR the clicked option, so that clicking the
same option twice restores the state before the first click.  The code
diverges: after voter u selects o1 under name N, the purge zeroes the
effective selection, so the second click on o1 re-adds it and the
document is left exactly as after the first click, still selected with
count 1, instead of returning to the fresh poll. -/
theorem c1_second_toggle_is_noop :
    handleVote (handleVote freshMultiPoll "u" "N" "o1") "u" "N" "o1" =
      handleVote freshMultiPoll "u" "N" "o1" ∧
    lookupA (handleVote (handleVote freshMultiPoll "u" "N" "o1")
      "u" "N" "o1").votedUserOptions "u" = some ["o1"] ∧
    handleVote freshMultiPoll "u" "N" "o1" ≠ freshMultiPoll := by
  refine ⟨by decide, by decide, by decide⟩

/-- C3: the claim states that toggling o1, o2, o1 in a fresh multi
poll leaves selection {o2} with totalVotes 1.  The code instead leaves
selection [o1]: each click replaces the whole selection because the
purge discards the pre-purge selection of the acting identity. -/
theorem c3_scenario_ends_with_o1 :
    lookupA (handleVote (handleVote (handleVote freshMultiPoll "u" "N" "o1")
        "u" "N" "o2") "u" "N" "o1").votedUserOptions "u" = some ["o1"] ∧
    (handleVote (handleVote (handleVote freshMultiPoll "u" "N" "o1")
        "u" "N" "o2") "u" "N" "o1").totalVotes = 1 := by
  refine ⟨by decide, by decide⟩

/-- C2 counterexample: skewedMultiPoll satisfies the claimed counting
invariant (totalVotes = 1 = vote-counter sum = selection-size sum), yet
after voter u toggles o1 under the same display name N the equalities
fail: totalVotes and the counter sum are 2 while the selection sizes
sum to 1. -/
theorem c2_counterexample :
    (skewedMultiPoll.totalVotes = sumVotes skewedMultiPoll ∧
      sumVotes skewedMultiPoll = sumSelections skewedMultiPoll) ∧
    (handleVote skewedMultiPoll "u" "N" "o1").totalVotes = 2 ∧
    sumVotes (handleVote skewedMultiPoll "u" "N" "o1") = 2 ∧
    sumSelections (handleVote skewedMultiPoll "u" "N" "o1") = 1 := by
  refine ⟨⟨by decide, by decide⟩, by decide, by decide, by decide⟩

/-- C4 counterexample: staleNameEvent has pairwise disjoint sets, but
when its attendee a casts notAttend under the new name Y, the purge
(which matches on the recorded name X) does not remove a from
attendees, so a ends up in attendees and notAttendees at once. -/
theorem c4_counterexample :
    rsvpDisjoint staleNameEvent ∧
    "a" ∈ (castResponse staleNameEvent "a" "Y"
      ScheduleResponse.notAttend).attendees ∧
    "a" ∈ (castResponse staleNameEvent "a" "Y"
      ScheduleResponse.notAttend).notAttendees := by
  refine ⟨by decide, by decide, by decide⟩

/-- C5 counterexample: voting in freshMultiPoll for an optionId that is
not in the option list does not return the document unchanged; it
increments totalVotes and records the unknown id in the selection. -/
theorem c5_counterexample :
    ¬ "bogus" ∈ freshMultiPoll.options.map (·.id) ∧
    handleVote freshMultiPoll "u" "N" "bogus" ≠ freshMultiPoll ∧
    (handleVote freshMultiPoll "u" "N" "bogus").totalVotes = 1 ∧
    lookupA (handleVote freshMultiPoll "u" "N" "bogus").votedUserOptions "u" =
      some ["bogus"] := by
  refine ⟨by decide, by decide, by decide, by decide⟩

/-- C6 counterexample: in twoDeviceEvent, identity a attends under 지운
and identity b is already in notAttending under the same name; calling
castResponse with b, 지운 and notAttend removes a and b everywhere and,
because the response was already selected under that name, b is not
re-added, so b does not end up present under notAttend as the claim
states. -/
theorem c6_counterexample :
    "a" ∈ twoDeviceEvent.attendees ∧
    lookupA twoDeviceEvent.attendeeDisplayNames "a" = some "지운" ∧
    ¬ "b" ∈ (castResponse twoDeviceEvent "b" "지운"
      ScheduleResponse.notAttend).notAttendees ∧
    (castResponse twoDeviceEvent "b" "지운"
      ScheduleResponse.notAttend).attendees = [] := by
  refine ⟨by decide, by decide, by decide, by decide⟩

/-- C7 counterexample: for attendingEvent, whose acting identity u is
already attending under the acting name A, the first castResponse with
attend is a toggle-off, so the first call does not yield the attend
state claimed for every event. -/
theorem c7_counterexample :
    "u" ∈ attendingEvent.attendees ∧
    ¬ "u" ∈ (castResponse attendingEvent "u" "A"
      ScheduleResponse.attend).attendees := by
  refine ⟨by decide, by decide⟩

/-- C8 counterexample: in zeroCountSinglePoll the display name N holds
a recorded vote for X cast by the acting identity z, but X is not
decremented by exactly 1 when z switches to Y (its counter is already
0 and stays 0), and totalVotes changes from 0 to 1. -/
theorem c8_counterexample :
    votesFor zeroCountSinglePoll "X" = 0 ∧
    votesFor (handleVote zeroCountSinglePoll "z" "N" "Y") "X" = 0 ∧
    zeroCountSinglePoll.totalVotes = 0 ∧
    (handleVote zeroCountSinglePoll "z" "N" "Y").totalVotes = 1 := by
  refine ⟨by decide, by decide, by decide, by decide⟩

/-- C9 counterexample: two invocations of addOptionToPoll with the same
poll and text but performed at different times produce different
documents, because the fresh option id embeds Date.now(). -/
theorem c9_counterexample :
    addOptionToPoll addablePoll "extra" 1 ≠ addOptionToPoll addablePoll "extra" 2 := by
  decide

/-- C10 counterexample: emptySelPoll records voter v with an empty
selection; after the acting voter u toggles o1, v is still in
votedUsers while its selection remains empty, so voters may well
contain an identity with an empty selection. -/
theorem c10_counterexample :
    "v" ∈ (handleVote emptySelPoll "u" "A" "o1").votedUsers ∧
    lookupA (handleVote emptySelPoll "u" "A" "o1").votedUserOptions "v" =
      some [] := by
  refine ⟨by decide, by decide⟩

/-- C9 amended: castResponse and handleVote are deterministic given the
document, acting identity, display name and argument; addOptionToPoll
is deterministic only once the invocation time used to mint the fresh
option id (Date.now() in the source) is also counted among the inputs. -/
theorem c9_deterministic_given_time (p1 p2 : Poll) (s1 s2 : Schedule)
    (z1 z2 n1 n2 q1 q2 t1 t2 : String) (now1 now2 : Nat)
    (r1 r2 : ScheduleResponse)
    (hp : p1 = p2) (hs : s1 = s2) (hz : z1 = z2) (hn : n1 = n2)
    (hq : q1 = q2) (ht : t1 = t2) (hnow : now1 = now2) (hr : r1 = r2) :
    handleVote p1 z1 n1 q1 = handleVote p2 z2 n2 q2 ∧
    castResponse s1 z1 n1 r1 = castResponse s2 z2 n2 r2 ∧
    addOptionToPoll p1 t1 now1 = addOptionToPoll p2 t2 now2 := by
  subst hp hs hz hn hq ht hnow hr
  exact ⟨rfl, rfl, rfl⟩

/-- Witness for C9 at concrete inputs. -/
theorem c9_deterministic_witness :
    handleVote freshMultiPoll "u" "N" "o1" =
      handleVote freshMultiPoll "u" "N" "o1" ∧
    castResponse attendingEvent "u" "N" ScheduleResponse.attend =
      castResponse attendingEvent "u" "N" ScheduleResponse.attend ∧
    addOptionToPoll freshMultiPoll "extra" 5 =
      addOptionToPoll freshMultiPoll "extra" 5 :=
  c9_deterministic_given_time freshMultiPoll freshMultiPoll attendingEvent
    attendingEvent "u" "u" "N" "N" "o1" "o1" "extra" "extra" 5 5
    ScheduleResponse.attend ScheduleResponse.attend
    rfl rfl rfl rfl rfl rfl rfl rfl

theorem forall2_map_of {α : Type} (l : List α) (f : α → α)
    (r : α → α → Prop) (h : ∀ a ∈ l, r (f a) a) :
    List.Forall₂ r (l.map f) l := by
  induction l with
  | nil => exact List.Forall₂.nil
  | cons x xs ih =>
    exact List.Forall₂.cons (h x (List.mem_cons_self x xs))
      (ih (fun a ha => h a (List.mem_cons_of_mem x ha)))

theorem forall2_vote_map (l2 l0 : List PollOption)
    (g : PollOption → PollOption)
    (h : List.Forall₂ (fun a b => a.id = b.id ∧ a.votes ≤ b.votes) l2 l0)
    (hg : ∀ a, (g a).id = a.id ∧ (g a).votes ≤ a.votes) :
    List.Forall₂ (fun a b => a.id = b.id ∧ a.votes ≤ b.votes)
      (l2.map g) l0 := by
  induction h with
  | nil => exact List.Forall₂.nil
  | @cons x y l1 l2 hab hrest ih =>
    exact List.Forall₂.cons
      ⟨(hg x).1.trans hab.1, Nat.le_trans (hg x).2 hab.2⟩ ih

/-- C5 (amended): the vote operations contain no optionId validation
and no unchanged-document error path.  For every poll with
duplicate-free option ids, every acting identity and nonempty display
name, voting for an id absent from the option list never moves any
counter up — option ids are preserved and every voteCount is bounded by
its input value, since only the purge and a changed single-mode vote
decrement — yet the operation is still applied: in multi mode the
unknown id is toggled in the acting voter's recorded selection (present
afterwards exactly when it was not effectively selected before) and,
when it is added, the voter is recorded in votedUsers and totalVotes
ends one above the sum of the result's counters (a ghost vote); in
single mode, unless the recorded previous option is the unknown id
itself, the acting voter's selection is overwritten with exactly the
unknown id, the voter is recorded, and a fresh (non-changing) vote
likewise leaves totalVotes one above the counter sum. -/
theorem c5_invalid_option_still_applied (p : Poll) (z n q : String)
    (hn : ¬ n = "") (hids : (p.options.map (·.id)).Nodup)
    (hq : ¬ q ∈ p.options.map (·.id)) :
    List.Forall₂ (fun a b => a.id = b.id ∧ a.votes ≤ b.votes)
      (handleVote p z n q).options p.options ∧
    (p.allowMultiple = true →
      (q ∈ (lookupA (handleVote p z n q).votedUserOptions z).getD [] ↔
        ¬ q ∈ effectiveSelectedIds p z n) ∧
      (¬ q ∈ effectiveSelectedIds p z n →
        z ∈ (handleVote p z n q).votedUsers ∧
        (handleVote p z n q).totalVotes =
          sumVotes (handleVote p z n q) + 1)) ∧
    (p.allowMultiple = false → ¬ singlePrevOptionId p n = some q →
      lookupA (handleVote p z n q).votedUserOptions z = some [q] ∧
      z ∈ (handleVote p z n q).votedUsers ∧
      (¬ singleIsChanging p z n →
        (handleVote p z n q).totalVotes =
          sumVotes (handleVote p z n q) + 1)) := by
  have hqopt : ∀ opt ∈ purgedOptions p n, ¬ opt.id = q := by
    intro opt hopt hc
    apply hq
    rw [← purgedOptions_map_id p n hids]
    exact List.mem_map.mpr ⟨opt, hopt, hc⟩
  have hpurge_le : List.Forall₂ (fun a b => a.id = b.id ∧ a.votes ≤ b.votes)
      (purgedOptions p n) p.options := by
    unfold purgedOptions
    rw [purgeVotes_eq_map _ _ _ hids]
    exact forall2_map_of _ _ _ (fun a _ => ⟨rfl, Nat.sub_le _ _⟩)
  have hoptsM : (handleVoteMulti p z n q).options = purgedOptions p n := by
    have h0 : (handleVoteMulti p z n q).options =
        (purgedOptions p n).map (fun opt =>
          if opt.id = q then
            { opt with votes :=
                if q ∈ effectiveSelectedIds p z n then opt.votes - 1
                else opt.votes + 1 }
          else opt) := rfl
    have hmapid : ∀ opt ∈ purgedOptions p n,
        (if opt.id = q then
          { opt with votes :=
              if q ∈ effectiveSelectedIds p z n then opt.votes - 1
              else opt.votes + 1 }
        else opt) = opt :=
      fun opt hopt => if_neg (hqopt opt hopt)
    rw [h0, List.map_congr_left hmapid, List.map_id']
  have hmap1 : ∀ opt ∈ purgedOptions p n,
      (if opt.id = q then { opt with votes := opt.votes + 1 }
      else opt) = opt :=
    fun opt hopt => if_neg (hqopt opt hopt)
  have hmem_new : q ∈ multiNewSelectedIds p z n q ↔
      ¬ q ∈ effectiveSelectedIds p z n := by
    unfold multiNewSelectedIds
    by_cases hin : q ∈ effectiveSelectedIds p z n
    · rw [if_pos hin]
      constructor
      · intro h
        have h2 := (List.mem_filter.mp h).2
        simp at h2
      · intro h
        exact absurd hin h
    · rw [if_neg hin]
      constructor
      · intro _
        exact hin
      · intro _
        exact List.mem_append_right _ (List.mem_singleton_self q)
  refine ⟨?_, ?_, ?_⟩
  · cases hb : p.allowMultiple with
    | true =>
      have hrm : handleVote p z n q = handleVoteMulti p z n q := by
        unfold handleVote
        rw [if_neg hn, if_pos hb]
      rw [hrm, hoptsM]
      exact hpurge_le
    | false =>
      have hr : handleVote p z n q = handleVoteSingle p z n q := by
        unfold handleVote
        rw [if_neg hn, hb, if_neg (fun h => Bool.noConfusion h)]
      rw [hr]
      by_cases hpq : singlePrevOptionId p n = some q
      · have h1 : (handleVoteSingle p z n q).options = purgedOptions p n := by
          unfold handleVoteSingle
          rw [if_pos hpq]
        rw [h1]
        exact hpurge_le
      · have h2 : (handleVoteSingle p z n q).options =
            (if singleIsChanging p z n then
              (purgedOptions p n).map (fun opt =>
                if opt.id = (singlePrevOptionId p n).getD "" then
                  { opt with votes := opt.votes - 1 }
                else if opt.id = q then
                  { opt with votes := opt.votes + 1 }
                else opt)
            else
              (purgedOptions p n).map (fun opt =>
                if opt.id = q then { opt with votes := opt.votes + 1 }
                else opt)) := by
          unfold handleVoteSingle
          rw [if_neg hpq]
        rw [h2]
        by_cases hch : singleIsChanging p z n
        · have hgg : ∀ opt ∈ purgedOptions p n,
              (if opt.id = (singlePrevOptionId p n).getD "" then
                { opt with votes := opt.votes - 1 }
              else if opt.id = q then
                { opt with votes := opt.votes + 1 }
              else opt) =
              (if opt.id = (singlePrevOptionId p n).getD "" then
                { opt with votes := opt.votes - 1 }
              else opt) := by
            intro opt hopt
            by_cases hpd : opt.id = (singlePrevOptionId p n).getD ""
            · rw [if_pos hpd, if_pos hpd]
            · rw [if_neg hpd, if_neg hpd, if_neg (hqopt opt hopt)]
          rw [if_pos hch, List.map_congr_left hgg]
          refine forall2_vote_map _ _ _ hpurge_le ?_
          intro a
          by_cases hpd : a.id = (singlePrevOptionId p n).getD ""
          · rw [if_pos hpd]
            exact ⟨rfl, Nat.sub_le _ _⟩
          · rw [if_neg hpd]
            exact ⟨rfl, Nat.le_refl _⟩
        · rw [if_neg hch, List.map_congr_left hmap1, List.map_id']
          exact hpurge_le
  · intro hmm
    have hrm : handleVote p z n q = handleVoteMulti p z n q := by
      unfold handleVote
      rw [if_neg hn, if_pos hmm]
    have hlu : (handleVoteMulti p z n q).votedUserOptions =
        setA (cleanVotedUserOpts p n) z (multiNewSelectedIds p z n q) := rfl
    constructor
    · rw [hrm, hlu, lookupA_setA_self]
      simp only [Option.getD_some]
      exact hmem_new
    · intro hav
      have hlen : 0 < (multiNewSelectedIds p z n q).length := by
        unfold multiNewSelectedIds
        rw [if_neg hav, List.length_append]
        exact Nat.succ_pos _
      constructor
      · rw [hrm]
        show z ∈ multiNewVotedUsers p z n q
        unfold multiNewVotedUsers
        by_cases hzc : z ∈ cleanVotedUsers p n
        · rw [if_neg (fun h => h.2 hzc), if_neg (fun h0 => by
            rw [h0] at hlen
            exact Nat.lt_irrefl 0 hlen)]
          exact hzc
        · rw [if_pos ⟨hlen, hzc⟩]
          exact List.mem_append_right _ (List.mem_singleton_self z)
      · rw [hrm]
        have h1 : (handleVoteMulti p z n q).totalVotes =
            (if q ∈ effectiveSelectedIds p z n then
              ((purgedOptions p n).map (·.votes)).sum - 1
            else ((purgedOptions p n).map (·.votes)).sum + 1) := rfl
        rw [h1, if_neg hav]
        unfold sumVotes
        rw [hoptsM]
  · intro hmm hprev
    have hr : handleVote p z n q = handleVoteSingle p z n q := by
      unfold handleVote
      rw [if_neg hn, hmm, if_neg (fun h => Bool.noConfusion h)]
    have h3 : (handleVoteSingle p z n q).votedUserOptions =
        setA (cleanVotedUserOpts p n) z [q] := by
      unfold handleVoteSingle
      rw [if_neg hprev]
    have h4 : (handleVoteSingle p z n q).votedUsers =
        (if z ∈ cleanVotedUsers p n then cleanVotedUsers p n
        else cleanVotedUsers p n ++ [z]) := by
      unfold handleVoteSingle
      rw [if_neg hprev]
    refine ⟨?_, ?_, ?_⟩
    · rw [hr, h3]
      exact lookupA_setA_self _ _ _
    · rw [hr, h4]
      by_cases hzc : z ∈ cleanVotedUsers p n
      · rw [if_pos hzc]
        exact hzc
      · rw [if_neg hzc]
        exact List.mem_append_right _ (List.mem_singleton_self z)
    · intro hch
      have h5 : (handleVoteSingle p z n q).totalVotes =
          (if singleIsChanging p z n then
            ((purgedOptions p n).map (·.votes)).sum
          else ((purgedOptions p n).map (·.votes)).sum + 1) := by
        unfold handleVoteSingle
        rw [if_neg hprev]
      have h6 : (handleVoteSingle p z n q).options = purgedOptions p n := by
        unfold handleVoteSingle
        rw [if_neg hprev]
        rw [if_neg hch, List.map_congr_left hmap1, List.map_id']
      rw [hr, h5, if_neg hch]
      unfold sumVotes
      rw [h6]

/-- Witness for C5 at concrete inputs. -/
theorem c5_invalid_option_witness :
    List.Forall₂ (fun a b => a.id = b.id ∧ a.votes ≤ b.votes)
      (handleVote freshMultiPoll "u" "N" "bogus").options
      freshMultiPoll.options ∧
    (freshMultiPoll.allowMultiple = true →
      ("bogus" ∈ (lookupA (handleVote freshMultiPoll "u" "N"
          "bogus").votedUserOptions "u").getD [] ↔
        ¬ "bogus" ∈ effectiveSelectedIds freshMultiPoll "u" "N") ∧
      (¬ "bogus" ∈ effectiveSelectedIds freshMultiPoll "u" "N" →
        "u" ∈ (handleVote freshMultiPoll "u" "N" "bogus").votedUsers ∧
        (handleVote freshMultiPoll "u" "N" "bogus").totalVotes =
          sumVotes (handleVote freshMultiPoll "u" "N" "bogus") + 1)) ∧
    (freshMultiPoll.allowMultiple = false →
      ¬ singlePrevOptionId freshMultiPoll "N" = some "bogus" →
      lookupA (handleVote freshMultiPoll "u" "N" "bogus").votedUserOptions
          "u" = some ["bogus"] ∧
      "u" ∈ (handleVote freshMultiPoll "u" "N" "bogus").votedUsers ∧
      (¬ singleIsChanging freshMultiPoll "u" "N" →
        (handleVote freshMultiPoll "u" "N" "bogus").totalVotes =
          sumVotes (handleVote freshMultiPoll "u" "N" "bogus") + 1)) :=
  c5_invalid_option_still_applied freshMultiPoll "u" "N" "bogus"
    (by decide) (by decide) (by decide)

/-- C10 amended: after toggleOption on a multi-select poll whose
recorded voters all carry nonempty selections, votedUsers never
contains an identity with an empty selection, while the acting
identity's key always remains in votedUserOptions, mapped to the empty
list whenever the toggle removed its last selected option (which is why
it is absent from votedUsers). -/
theorem c10_voters_nonempty_selection (p : Poll) (z n q : String)
    (hm : p.allowMultiple = true) (hn : ¬ n = "")
    (hne : ∀ u ∈ p.votedUsers, (lookupA p.votedUserOptions u).getD [] ≠ []) :
    (∀ u ∈ (handleVote p z n q).votedUsers,
      (lookupA (handleVote p z n q).votedUserOptions u).getD [] ≠ []) ∧
    (¬ z ∈ (handleVote p z n q).votedUsers →
      lookupA (handleVote p z n q).votedUserOptions z = some []) := by
  have hhv : handleVote p z n q = handleVoteMulti p z n q := by
    unfold handleVote
    rw [if_neg hn, if_pos hm]
  have hOpts : (handleVoteMulti p z n q).votedUserOptions =
      setA (cleanVotedUserOpts p n) z (multiNewSelectedIds p z n q) := rfl
  have hUsers : (handleVoteMulti p z n q).votedUsers =
      multiNewVotedUsers p z n q := rfl
  have hclean : ∀ u ∈ cleanVotedUsers p n, u ≠ z →
      (lookupA (setA (cleanVotedUserOpts p n) z
        (multiNewSelectedIds p z n q)) u).getD [] ≠ [] := by
    intro u hu huz
    rw [lookupA_setA_ne _ _ _ _ huz, lookupA_cleanVotedUserOpts, if_pos hu]
    exact hne u (mem_cleanVotedUsers.mp hu).1
  have hself : (lookupA (setA (cleanVotedUserOpts p n) z
      (multiNewSelectedIds p z n q)) z).getD [] =
      multiNewSelectedIds p z n q := by
    rw [lookupA_setA_self]
    rfl
  rw [hhv, hOpts, hUsers]
  constructor
  · intro u hu
    unfold multiNewVotedUsers at hu
    by_cases h1 : (multiNewSelectedIds p z n q).length > 0 ∧
        ¬ z ∈ cleanVotedUsers p n
    · rw [if_pos h1] at hu
      rcases List.mem_append.mp hu with huC | huz
      · by_cases huz2 : u = z
        · subst huz2
          rw [hself]
          exact List.ne_nil_of_length_pos h1.1
        · exact hclean u huC huz2
      · rw [List.mem_singleton] at huz
        subst huz
        rw [hself]
        exact List.ne_nil_of_length_pos h1.1
    · rw [if_neg h1] at hu
      by_cases h2 : (multiNewSelectedIds p z n q).length = 0
      · rw [if_pos h2] at hu
        rcases List.mem_filter.mp hu with ⟨huC, huz⟩
        simp only [decide_eq_true_eq] at huz
        exact hclean u huC huz
      · rw [if_neg h2] at hu
        by_cases huz2 : u = z
        · subst huz2
          rw [hself]
          refine List.ne_nil_of_length_pos ?_
          omega
        · exact hclean u hu huz2
  · intro hznot
    unfold multiNewVotedUsers at hznot
    by_cases h1 : (multiNewSelectedIds p z n q).length > 0 ∧
        ¬ z ∈ cleanVotedUsers p n
    · rw [if_pos h1] at hznot
      exact absurd (List.mem_append.mpr (Or.inr (by simp))) hznot
    · rw [if_neg h1] at hznot
      by_cases h2 : (multiNewSelectedIds p z n q).length = 0
      · rw [lookupA_setA_self, List.length_eq_zero.mp h2]
      · rw [if_neg h2] at hznot
        exfalso
        apply hznot
        by_contra hc
        exact h1 ⟨by omega, hc⟩

/-- Witness for C10 at concrete inputs: the second toggle of o1 under a
switched display name removes the last selected option. -/
theorem c10_voters_nonempty_witness :
    (∀ u ∈ (handleVote skewedMultiPoll "u" "M" "o1").votedUsers,
      (lookupA (handleVote skewedMultiPoll "u" "M" "o1").votedUserOptions
        u).getD [] ≠ []) ∧
    (¬ "u" ∈ (handleVote skewedMultiPoll "u" "M" "o1").votedUsers →
      lookupA (handleVote skewedMultiPoll "u" "M" "o1").votedUserOptions "u" =
        some []) :=
  c10_voters_nonempty_selection skewedMultiPoll "u" "M" "o1"
    (by decide) (by decide) (by decide)

/-! Lemmas about unique matches and counter updates. -/

theorem find?_eq_of_unique {α : Type} (l : List α) (p : α → Bool) (a : α)
    (ha : a ∈ l) (hpa : p a = true)
    (huniq : ∀ b ∈ l, p b = true → b = a) : l.find? p = some a := by
  induction l with
  | nil => cases ha
  | cons x xs ih =>
    by_cases hx : p x = true
    · rw [List.find?_cons_of_pos _ hx, huniq x (List.mem_cons_self x xs) hx]
    · rw [List.find?_cons_of_neg _ hx]
      apply ih
      · rcases List.mem_cons.mp ha with h | h
        · exact absurd (h ▸ hpa) hx
        · exact h
      · intro b hb hpb
        exact huniq b (List.mem_cons_of_mem _ hb) hpb

theorem filter_eq_singleton_of_unique {α : Type} [DecidableEq α]
    (l : List α) (p : α → Bool) (a : α) (ha : a ∈ l) (hpa : p a = true)
    (huniq : ∀ b ∈ l, p b = true → b = a) (hcount : l.count a = 1) :
    l.filter p = [a] := by
  induction l with
  | nil => cases ha
  | cons x xs ih =>
    by_cases hx : p x = true
    · have hxa : x = a := huniq x (List.mem_cons_self x xs) hx
      subst hxa
      rw [List.filter_cons_of_pos hx]
      have hnot : x ∉ xs := by
        intro hc
        rw [List.count_cons, if_pos (by simp)] at hcount
        have := List.count_pos_iff.mpr hc
        omega
      have hempty : xs.filter p = [] := by
        rw [List.filter_eq_nil_iff]
        intro b hb hpb
        exact hnot ((huniq b (List.mem_cons_of_mem _ hb) hpb) ▸ hb)
      rw [hempty]
    · rw [List.filter_cons_of_neg hx]
      have hxa : ¬ x = a := fun hc => hx (hc ▸ hpa)
      apply ih
      · rcases List.mem_cons.mp ha with h | h
        · exact absurd h.symm hxa
        · exact h
      · intro b hb hpb
        exact huniq b (List.mem_cons_of_mem _ hb) hpb
      · rw [List.count_cons, if_neg (by simp [hxa]), Nat.add_zero] at hcount
        exact hcount

theorem find?_id_map (l : List PollOption) (g : PollOption → PollOption)
    (hg : ∀ opt, (g opt).id = opt.id) (o : String) :
    (l.map g).find? (fun opt => opt.id = o) =
      (l.find? (fun opt => opt.id = o)).map g := by
  induction l with
  | nil => rfl
  | cons opt rest ih =>
    by_cases h : opt.id = o
    · rw [List.map_cons, List.find?_cons_of_pos _ (by simp [hg, h]),
        List.find?_cons_of_pos _ (by simp [h])]
      rfl
    · rw [List.map_cons, List.find?_cons_of_neg _ (by simp [hg, h]),
        List.find?_cons_of_neg _ (by simp [h]), ih]

theorem sum_map_inc (l : List PollOption) (Y : String)
    (hids : (l.map (·.id)).Nodup) (hY : Y ∈ l.map (·.id)) :
    ((l.map (fun opt =>
      if opt.id = Y then { opt with votes := opt.votes + 1 } else opt)).map
        (·.votes)).sum = (l.map (·.votes)).sum + 1 := by
  induction l with
  | nil => cases hY
  | cons opt rest ih =>
    simp only [List.map_cons, List.nodup_cons] at hids
    by_cases h : opt.id = Y
    · rw [List.map_cons, if_pos h]
      have hrest : rest.map (fun opt2 =>
          if opt2.id = Y then { opt2 with votes := opt2.votes + 1 } else opt2)
          = rest.map (fun opt2 => opt2) := by
        apply List.map_congr_left
        intro a ha
        rw [if_neg]
        intro hc
        exact hids.1 (h ▸ hc ▸ List.mem_map.mpr ⟨a, ha, rfl⟩)
      rw [hrest, List.map_id']
      simp only [List.map_cons, List.sum_cons]
      omega
    · rw [List.map_cons, if_neg h]
      have hY2 : Y ∈ rest.map (·.id) := by
        rw [List.map_cons] at hY
        rcases List.mem_cons.mp hY with hc | hc
        · exact absurd hc.symm h
        · exact hc
      simp only [List.map_cons, List.sum_cons, ih hids.2 hY2]
      omega

theorem sum_map_dec (l : List PollOption) (X : String)
    (hids : (l.map (·.id)).Nodup) (hX : X ∈ l.map (·.id))
    (hpos : ∀ opt ∈ l, opt.id = X → 1 ≤ opt.votes) :
    ((l.map (fun opt =>
      if opt.id = X then { opt with votes := opt.votes - 1 } else opt)).map
        (·.votes)).sum + 1 = (l.map (·.votes)).sum := by
  induction l with
  | nil => cases hX
  | cons opt rest ih =>
    simp only [List.map_cons, List.nodup_cons] at hids
    by_cases h : opt.id = X
    · rw [List.map_cons, if_pos h]
      have hrest : rest.map (fun opt2 =>
          if opt2.id = X then { opt2 with votes := opt2.votes - 1 } else opt2)
          = rest.map (fun opt2 => opt2) := by
        apply List.map_congr_left
        intro a ha
        rw [if_neg]
        intro hc
        exact hids.1 (h ▸ hc ▸ List.mem_map.mpr ⟨a, ha, rfl⟩)
      rw [hrest, List.map_id']
      simp only [List.map_cons, List.sum_cons]
      have := hpos opt (List.mem_cons_self opt rest) h
      omega
    · rw [List.map_cons, if_neg h]
      have hX2 : X ∈ rest.map (·.id) := by
        rw [List.map_cons] at hX
        rcases List.mem_cons.mp hX with hc | hc
        · exact absurd hc.symm h
        · exact hc
      have hpos2 : ∀ opt2 ∈ rest, opt2.id = X → 1 ≤ opt2.votes :=
        fun opt2 h2 h3 => hpos opt2 (List.mem_cons_of_mem _ h2) h3
      simp only [List.map_cons, List.sum_cons]
      have := ih hids.2 hX2 hpos2
      omega

/-- C8 amended: in single-select mode, for a well-formed poll in which
the acting display name belongs to the acting identity alone and its
recorded vote (cast by that identity) is option X with a positive
counter, selecting a different existing option Y decrements X by
exactly 1, increments Y by exactly 1, and leaves totalVotes unchanged;
the counting hypotheses (counter of X positive, totalVotes equal to the
counter sum) are needed because the source clamps decrements at zero
and recomputes totalVotes from the counters. -/
theorem c8_single_transfer (p : Poll) (z n X Y : String)
    (hm : p.allowMultiple = false) (hn : ¬ n = "")
    (hkeys : (p.voterDisplayNames.map (·.1)).Nodup)
    (hz : lookupA p.voterDisplayNames z = some n)
    (honly : ∀ e ∈ p.voterDisplayNames, e.2 = n → e.1 = z)
    (hsel : lookupA p.votedUserOptions z = some [X])
    (hXY : ¬ X = Y)
    (hXid : X ∈ p.options.map (·.id))
    (hYid : Y ∈ p.options.map (·.id))
    (hids : (p.options.map (·.id)).Nodup)
    (hvX : 1 ≤ votesFor p X)
    (htot : p.totalVotes = sumVotes p) :
    votesFor (handleVote p z n Y) X + 1 = votesFor p X ∧
    votesFor (handleVote p z n Y) Y = votesFor p Y + 1 ∧
    (handleVote p z n Y).totalVotes = p.totalVotes := by
  have hmemzn : (z, n) ∈ p.voterDisplayNames := lookupA_eq_some_mem hz
  have huniq : ∀ e ∈ p.voterDisplayNames, decide (e.2 = n) = true →
      e = (z, n) := by
    intro e he hpe
    simp only [decide_eq_true_eq] at hpe
    have := honly e he hpe
    cases e
    simp_all
  have hfilter : p.voterDisplayNames.filter (fun q => q.2 = n) = [(z, n)] := by
    apply filter_eq_singleton_of_unique _ _ (z, n) hmemzn (by simp) huniq
    exact List.count_eq_one_of_mem (List.Nodup.of_map _ hkeys) hmemzn
  have hR : uidsToRemove p n = [z] := by
    unfold uidsToRemove
    rw [hfilter]
    rfl
  have hprev : getMyPollSelectedIds p n = [X] := by
    unfold getMyPollSelectedIds
    rw [if_neg hn, find?_eq_of_unique _ _ (z, n) hmemzn (by simp) huniq]
    show (lookupA p.votedUserOptions z).getD [] = [X]
    rw [hsel]
    rfl
  have hsingle : handleVote p z n Y = handleVoteSingle p z n Y := by
    unfold handleVote
    rw [if_neg hn, if_neg (by simp [hm])]
  have hprevId : singlePrevOptionId p n = some X := by
    unfold singlePrevOptionId
    rw [hprev]
    rfl
  have hnotSame : ¬ singlePrevOptionId p n = some Y := by
    rw [hprevId]
    simp [hXY]
  have heff : effectiveSelectedIds p z n = [] := by
    unfold effectiveSelectedIds
    rw [if_pos (by rw [hR]; exact List.mem_singleton.mpr rfl)]
  have hchanging : ¬ singleIsChanging p z n := by
    intro hc
    have := hc.1
    rw [heff] at this
    simp at this
  have hpurged : purgedOptions p n = p.options.map (fun opt =>
      if opt.id = X then { opt with votes := opt.votes - 1 } else opt) := by
    unfold purgedOptions purgeVotes
    rw [hR, List.foldl_cons, List.foldl_nil, hsel]
    show [X].foldl (fun a oid => decFirst a oid) p.options = _
    rw [List.foldl_cons, List.foldl_nil]
    exact decFirst_eq_map p.options X hids
  have hres : handleVoteSingle p z n Y =
      { p with
        options := (purgedOptions p n).map (fun opt =>
          if opt.id = Y then { opt with votes := opt.votes + 1 } else opt)
        totalVotes := ((purgedOptions p n).map (·.votes)).sum + 1
        votedUserOptions := setA (cleanVotedUserOpts p n) z [Y]
        votedUsers :=
          if z ∈ cleanVotedUsers p n then cleanVotedUsers p n
          else cleanVotedUsers p n ++ [z]
        voterDisplayNames := setA (cleanVoterNames p n) z n } := by
    unfold handleVoteSingle
    rw [if_neg hnotSame, if_neg hchanging, if_neg hchanging]
  have hfindX : ∃ optX, p.options.find? (fun opt => opt.id = X) = some optX ∧
      optX.id = X ∧ optX ∈ p.options := by
    rcases hf : p.options.find? (fun opt => opt.id = X) with _ | optX
    · exfalso
      rcases List.mem_map.mp hXid with ⟨optX, hmem, hid⟩
      have := List.find?_eq_none.mp hf optX hmem
      simp [hid] at this
    · exact ⟨optX, hf, by simpa using List.find?_some hf,
        List.mem_of_find?_eq_some hf⟩
  have hfindY : ∃ optY, p.options.find? (fun opt => opt.id = Y) = some optY ∧
      optY.id = Y ∧ optY ∈ p.options := by
    rcases hf : p.options.find? (fun opt => opt.id = Y) with _ | optY
    · exfalso
      rcases List.mem_map.mp hYid with ⟨optY, hmem, hid⟩
      have := List.find?_eq_none.mp hf optY hmem
      simp [hid] at this
    · exact ⟨optY, hf, by simpa using List.find?_some hf,
        List.mem_of_find?_eq_some hf⟩
  rcases hfindX with ⟨optX, hfX, hfXid, hfXmem⟩
  rcases hfindY with ⟨optY, hfY, hfYid, hfYmem⟩
  have hvXopt : votesFor p X = optX.votes := by
    unfold votesFor
    rw [hfX]
    rfl
  have hvYopt : votesFor p Y = optY.votes := by
    unfold votesFor
    rw [hfY]
    rfl
  have hoptions : (handleVote p z n Y).options = p.options.map (fun opt =>
      (fun opt2 => if opt2.id = Y then { opt2 with votes := opt2.votes + 1 }
        else opt2)
      ((fun opt2 => if opt2.id = X then { opt2 with votes := opt2.votes - 1 }
        else opt2) opt)) := by
    rw [hsingle, hres]
    show ((purgedOptions p n).map _) = _
    rw [hpurged, List.map_map]
    rfl
  have hinner : ∀ opt : PollOption,
      ((fun opt2 => if opt2.id = X then { opt2 with votes := opt2.votes - 1 }
        else opt2) opt).id = opt.id := by
    intro opt
    by_cases h : opt.id = X
    · simp [h]
    · simp [h]
  have hg : ∀ opt : PollOption,
      ((fun opt2 => if opt2.id = Y then { opt2 with votes := opt2.votes + 1 }
        else opt2)
      ((fun opt2 => if opt2.id = X then { opt2 with votes := opt2.votes - 1 }
        else opt2) opt)).id = opt.id := by
    intro opt
    by_cases h : ((fun opt2 => if opt2.id = X then
        { opt2 with votes := opt2.votes - 1 } else opt2) opt).id = Y
    · simp only [if_pos h]
      exact hinner opt
    · simp only [if_neg h]
      exact hinner opt
  refine ⟨?_, ?_, ?_⟩
  · have hval : votesFor (handleVote p z n Y) X = optX.votes - 1 := by
      unfold votesFor
      rw [hoptions, find?_id_map _ _ hg, hfX]
      simp only [Option.map_some', Option.getD_some]
      rw [if_pos hfXid]
      have houter : ¬ ({ optX with votes := optX.votes - 1 } :
          PollOption).id = Y := by
        show ¬ optX.id = Y
        rw [hfXid]
        exact hXY
      rw [if_neg houter]
    rw [hval, hvXopt]
    rw [hvXopt] at hvX
    omega
  · have hval : votesFor (handleVote p z n Y) Y = optY.votes + 1 := by
      unfold votesFor
      rw [hoptions, find?_id_map _ _ hg, hfY]
      simp only [Option.map_some', Option.getD_some]
      rw [if_neg (show ¬ optY.id = X by rw [hfYid]; exact fun hc => hXY hc.symm)]
      rw [if_pos hfYid]
    rw [hval, hvYopt]
  · have htotal : (handleVote p z n Y).totalVotes =
        ((purgedOptions p n).map (·.votes)).sum + 1 := by
      rw [hsingle, hres]
    have hposX : ∀ opt ∈ p.options, opt.id = X → 1 ≤ opt.votes := by
      intro opt hmem hid
      have : opt = optX := by
        have hinj := List.inj_on_of_nodup_map hids
        exact hinj hmem hfXmem (by rw [hid, hfXid])
      rw [this]
      rw [hvXopt] at hvX
      exact hvX
    have hsum := sum_map_dec p.options X hids hXid hposX
    rw [htotal, hpurged, htot]
    unfold sumVotes
    omega

/-- Witness for C8 at concrete inputs. -/
theorem c8_single_transfer_witness :
    votesFor (handleVote transferPoll "z" "N" "Y") "X" + 1 =
      votesFor transferPoll "X" ∧
    votesFor (handleVote transferPoll "z" "N" "Y") "Y" =
      votesFor transferPoll "Y" + 1 ∧
    (handleVote transferPoll "z" "N" "Y").totalVotes =
      transferPoll.totalVotes :=
  c8_single_transfer transferPoll "z" "N" "X" "Y" (by decide) (by decide)
    (by decide) (by decide) (by decide) (by decide) (by decide) (by decide)
    (by decide) (by decide) (by decide) (by decide)

/-! Bridging lemmas about the intermediate values of castResponse. -/

theorem mem_removeByName {names : List (String × String)} {n : String}
    {arr : List String} {u : String} :
    u ∈ removeByName names n arr ↔
      u ∈ arr ∧ ¬ lookupA names u = some n := by
  unfold removeByName
  rw [List.mem_filter]
  simp

theorem mem_castAttendees {s : Schedule} {z n : String}
    {r : ScheduleResponse} {u : String} :
    u ∈ castAttendees s z n r ↔
      (u ∈ s.attendees ∧ ¬ lookupA s.attendeeDisplayNames u = some n) ∨
      (wasAlreadySelected s n r = false ∧ r = ScheduleResponse.attend ∧
        u = z) := by
  unfold castAttendees
  by_cases hcond : wasAlreadySelected s n r = false ∧
      r = ScheduleResponse.attend
  · rw [if_pos hcond, List.mem_append, mem_removeByName, List.mem_singleton]
    constructor
    · rintro (h | h)
      · exact Or.inl h
      · exact Or.inr ⟨hcond.1, hcond.2, h⟩
    · rintro (h | h)
      · exact Or.inl h
      · exact Or.inr h.2.2
  · rw [if_neg hcond, mem_removeByName]
    constructor
    · exact Or.inl
    · rintro (h | h)
      · exact h
      · exact absurd ⟨h.1, h.2.1⟩ hcond

theorem mem_castNotAttendees {s : Schedule} {z n : String}
    {r : ScheduleResponse} {u : String} :
    u ∈ castNotAttendees s z n r ↔
      (u ∈ s.notAttendees ∧ ¬ lookupA s.attendeeDisplayNames u = some n) ∨
      (wasAlreadySelected s n r = false ∧ r = ScheduleResponse.notAttend ∧
        u = z) := by
  unfold castNotAttendees
  by_cases hcond : wasAlreadySelected s n r = false ∧
      r = ScheduleResponse.notAttend
  · rw [if_pos hcond, List.mem_append, mem_removeByName, List.mem_singleton]
    constructor
    · rintro (h | h)
      · exact Or.inl h
      · exact Or.inr ⟨hcond.1, hcond.2, h⟩
    · rintro (h | h)
      · exact Or.inl h
      · exact Or.inr h.2.2
  · rw [if_neg hcond, mem_removeByName]
    constructor
    · exact Or.inl
    · rintro (h | h)
      · exact h
      · exact absurd ⟨h.1, h.2.1⟩ hcond

theorem mem_castUndecided {s : Schedule} {z n : String}
    {r : ScheduleResponse} {u : String} :
    u ∈ castUndecided s z n r ↔
      (u ∈ s.undecided ∧ ¬ lookupA s.attendeeDisplayNames u = some n) ∨
      (wasAlreadySelected s n r = false ∧ r = ScheduleResponse.undecided ∧
        u = z) := by
  unfold castUndecided
  by_cases hcond : wasAlreadySelected s n r = false ∧
      r = ScheduleResponse.undecided
  · rw [if_pos hcond, List.mem_append, mem_removeByName, List.mem_singleton]
    constructor
    · rintro (h | h)
      · exact Or.inl h
      · exact Or.inr ⟨hcond.1, hcond.2, h⟩
    · rintro (h | h)
      · exact Or.inl h
      · exact Or.inr h.2.2
  · rw [if_neg hcond, mem_removeByName]
    constructor
    · exact Or.inl
    · rintro (h | h)
      · exact h
      · exact absurd ⟨h.1, h.2.1⟩ hcond

theorem lookupA_rebuildNames (names : List (String × String))
    (uid n : String) (allUids : List String) (x : String) :
    lookupA (rebuildNames names uid n allUids) x =
      if x ∈ allUids then
        (if x = uid then some n
         else (lookupA names x).bind (fun m => if m = "" then none else some m))
      else none := by
  unfold rebuildNames
  rw [lookupA_filterMap_eq _ _ ?hf x]
  case hf =>
    intro y pr hpr
    by_cases hy : y = uid
    · rw [if_pos hy] at hpr
      cases hpr
      rfl
    · rw [if_neg hy] at hpr
      rcases hm : lookupA names y with _ | m
      · rw [hm] at hpr
        cases hpr
      · rw [hm] at hpr
        by_cases hme : m = ""
        · simp [hme] at hpr
        · simp [hme] at hpr
          rw [← hpr]
  split
  · by_cases hx : x = uid
    · rw [if_pos hx, if_pos hx]
      rfl
    · rw [if_neg hx, if_neg hx]
      rcases hm : lookupA names x with _ | m
      · rfl
      · by_cases hme : m = ""
        · simp [hme]
        · simp [hme]
  · rfl

theorem mem_castAllUids {s : Schedule} {z n : String}
    {r : ScheduleResponse} {x : String} :
    x ∈ castAllUids s z n r ↔
      x ∈ castAttendees s z n r ++ castNotAttendees s z n r ++
        castUndecided s z n r := by
  unfold castAllUids
  exact mem_dedupFirst

/-- Characterization of the rebuilt display-name lookup on identities
remaining in some set. -/
theorem castNames_char {s : Schedule} {z n : String} {r : ScheduleResponse}
    {x m : String} (hx : x ∈ castAllUids s z n r) :
    lookupA (rebuildNames s.attendeeDisplayNames z n (castAllUids s z n r))
        x = some m ↔
      ((x = z ∧ m = n) ∨
       (¬ x = z ∧ ¬ m = "" ∧ lookupA s.attendeeDisplayNames x = some m)) := by
  rw [lookupA_rebuildNames, if_pos hx]
  by_cases hxz : x = z
  · rw [if_pos hxz]
    constructor
    · intro h
      exact Or.inl ⟨hxz, (Option.some.injEq n m).mp h |>.symm⟩
    · rintro (⟨_, rfl⟩ | ⟨hc, _, _⟩)
      · rfl
      · exact absurd hxz hc
  · rw [if_neg hxz]
    rcases hl : lookupA s.attendeeDisplayNames x with _ | m2
    · constructor
      · intro h
        simp at h
      · rintro (⟨hc, _⟩ | ⟨_, _, hc⟩)
        · exact absurd hc hxz
        · exact Option.noConfusion hc
    · by_cases hm2 : m2 = ""
      · subst hm2
        constructor
        · intro h
          simp at h
        · rintro (⟨hc, _⟩ | ⟨_, hne, hc⟩)
          · exact absurd hc hxz
          · rw [Option.some.injEq] at hc
            exact absurd hc.symm hne
      · constructor
        · intro h
          simp only [Option.some_bind, if_neg hm2, Option.some.injEq] at h
          subst h
          exact Or.inr ⟨hxz, hm2, rfl⟩
        · rintro (⟨hc, _⟩ | ⟨_, hne, hc⟩)
          · exact absurd hc hxz
          · rw [Option.some.injEq] at hc
            subst hc
            simp [hm2]

theorem length_filter_le_of_imp {α : Type} (l : List α) (p q : α → Bool)
    (h : ∀ x ∈ l, p x = true → q x = true) :
    (l.filter p).length ≤ (l.filter q).length := by
  induction l with
  | nil => exact Nat.le_refl 0
  | cons x xs ih =>
    have ih2 := ih (fun y hy => h y (List.mem_cons_of_mem _ hy))
    by_cases hp : p x = true
    · rw [List.filter_cons_of_pos hp,
        List.filter_cons_of_pos (h x (List.mem_cons_self x xs) hp)]
      simpa using ih2
    · rw [List.filter_cons_of_neg hp]
      by_cases hq : q x = true
      · rw [List.filter_cons_of_pos hq]
        exact Nat.le_succ_of_le ih2
      · rw [List.filter_cons_of_neg hq]
        exact ih2

theorem count_eq_length_filter_eq (l : List String) (z : String) :
    l.count z = (l.filter (fun u => u == z)).length := by
  induction l with
  | nil => rfl
  | cons x xs ih =>
    rw [List.count_cons]
    by_cases hx : x = z
    · rw [List.filter_cons_of_pos (by simp [hx]), if_pos (by simp [hx]),
        List.length_cons, ih]
    · rw [List.filter_cons_of_neg (by simp [hx]), if_neg (by simp [hx]),
        Nat.add_zero, ih]

/-- C4 amended: castResponse preserves the pairwise disjointness of the
three RSVP sets and the one-slot-per-display-name bound, provided the
input event satisfies both and the acting identity is only ever
recorded under the acting (nonempty) display name; the extra hypothesis
is needed because the purge matches on the recorded name only, so an
identity re-voting after a display-name change would survive in its old
set. -/
theorem c4_disjoint_preserved (s : Schedule) (z n : String)
    (r : ScheduleResponse) (hn : ¬ n = "")
    (hdisj : rsvpDisjoint s)
    (hone : ∀ m, nameCount s m ≤ 1)
    (hself : (z ∈ s.attendees ∨ z ∈ s.notAttendees ∨ z ∈ s.undecided) →
      lookupA s.attendeeDisplayNames z = some n) :
    rsvpDisjoint (castResponse s z n r) ∧
    ∀ m, nameCount (castResponse s z n r) m ≤ 1 := by
  have hcast : castResponse s z n r =
      { s with
        attendees := castAttendees s z n r
        notAttendees := castNotAttendees s z n r
        undecided := castUndecided s z n r
        attendeeDisplayNames :=
          rebuildNames s.attendeeDisplayNames z n (castAllUids s z n r) } := by
    unfold castResponse
    rw [if_neg hn]
  have hAconc : ∀ x ∈ castAttendees s z n r, x ∈ castAllUids s z n r :=
    fun x hx => mem_castAllUids.mpr (List.mem_append.mpr
      (Or.inl (List.mem_append.mpr (Or.inl hx))))
  have hNconc : ∀ x ∈ castNotAttendees s z n r, x ∈ castAllUids s z n r :=
    fun x hx => mem_castAllUids.mpr (List.mem_append.mpr
      (Or.inl (List.mem_append.mpr (Or.inr hx))))
  have hUconc : ∀ x ∈ castUndecided s z n r, x ∈ castAllUids s z n r :=
    fun x hx => mem_castAllUids.mpr (List.mem_append.mpr (Or.inr hx))
  have hznotF : ∀ arr : List String,
      (arr = s.attendees ∨ arr = s.notAttendees ∨ arr = s.undecided) →
      ¬ z ∈ removeByName s.attendeeDisplayNames n arr := by
    intro arr harr hz
    rcases mem_removeByName.mp hz with ⟨hzarr, hzlook⟩
    apply hzlook
    apply hself
    rcases harr with rfl | rfl | rfl
    · exact Or.inl hzarr
    · exact Or.inr (Or.inl hzarr)
    · exact Or.inr (Or.inr hzarr)
  constructor
  · rw [hcast]
    refine ⟨?_, ?_, ?_⟩
    · intro u huA huN
      rcases mem_castAttendees.mp huA with ⟨huarr, hulook⟩ | ⟨hc1, hc2, rfl⟩
      · rcases mem_castNotAttendees.mp huN with ⟨hvarr, _⟩ | ⟨_, _, rfl⟩
        · exact hdisj.1 u huarr hvarr
        · exact hulook (hself (Or.inl huarr))
      · rcases mem_castNotAttendees.mp huN with ⟨hvarr, hvlook⟩ | ⟨_, hd2, _⟩
        · exact hvlook (hself (Or.inr (Or.inl hvarr)))
        · rw [hc2] at hd2
          cases hd2
    · intro u huA huU
      rcases mem_castAttendees.mp huA with ⟨huarr, hulook⟩ | ⟨hc1, hc2, rfl⟩
      · rcases mem_castUndecided.mp huU with ⟨hvarr, _⟩ | ⟨_, _, rfl⟩
        · exact hdisj.2.1 u huarr hvarr
        · exact hulook (hself (Or.inl huarr))
      · rcases mem_castUndecided.mp huU with ⟨hvarr, hvlook⟩ | ⟨_, hd2, _⟩
        · exact hvlook (hself (Or.inr (Or.inr hvarr)))
        · rw [hc2] at hd2
          cases hd2
    · intro u huN huU
      rcases mem_castNotAttendees.mp huN with ⟨huarr, hulook⟩ | ⟨hc1, hc2, rfl⟩
      · rcases mem_castUndecided.mp huU with ⟨hvarr, _⟩ | ⟨_, _, rfl⟩
        · exact hdisj.2.2 u huarr hvarr
        · exact hulook (hself (Or.inr (Or.inl huarr)))
      · rcases mem_castUndecided.mp huU with ⟨hvarr, hvlook⟩ | ⟨_, hd2, _⟩
        · exact hvlook (hself (Or.inr (Or.inr hvarr)))
        · rw [hc2] at hd2
          cases hd2
  · intro m
    rw [hcast]
    show ((castAttendees s z n r ++ castNotAttendees s z n r ++
        castUndecided s z n r).filter (fun u =>
          lookupA (rebuildNames s.attendeeDisplayNames z n
            (castAllUids s z n r)) u = some m)).length ≤ 1
    rw [List.filter_append, List.filter_append, List.length_append,
      List.length_append]
    by_cases hmn : m = n
    · subst hmn
      have hcountA : (castAttendees s z m r).count z ≤ 1 := by
        unfold castAttendees
        split
        · rw [List.count_append,
            List.count_eq_zero.mpr (hznotF s.attendees (Or.inl rfl))]
          simp
        · rw [List.count_eq_zero.mpr (hznotF s.attendees (Or.inl rfl))]
          omega
      have hcountN : (castNotAttendees s z m r).count z ≤ 1 := by
        unfold castNotAttendees
        split
        · rw [List.count_append,
            List.count_eq_zero.mpr (hznotF s.notAttendees (Or.inr (Or.inl rfl)))]
          simp
        · rw [List.count_eq_zero.mpr (hznotF s.notAttendees (Or.inr (Or.inl rfl)))]
          omega
      have hcountU : (castUndecided s z m r).count z ≤ 1 := by
        unfold castUndecided
        split
        · rw [List.count_append,
            List.count_eq_zero.mpr (hznotF s.undecided (Or.inr (Or.inr rfl)))]
          simp
        · rw [List.count_eq_zero.mpr (hznotF s.undecided (Or.inr (Or.inr rfl)))]
          omega
      have hexcl : (castAttendees s z m r).count z +
          (castNotAttendees s z m r).count z +
          (castUndecided s z m r).count z ≤ 1 := by
        rcases r with _ | _ | _
        · have hN : (castNotAttendees s z m ScheduleResponse.attend).count z
              = 0 := by
            unfold castNotAttendees
            rw [if_neg (fun hc => ScheduleResponse.noConfusion hc.2)]
            exact List.count_eq_zero.mpr
              (hznotF s.notAttendees (Or.inr (Or.inl rfl)))
          have hU : (castUndecided s z m ScheduleResponse.attend).count z
              = 0 := by
            unfold castUndecided
            rw [if_neg (fun hc => ScheduleResponse.noConfusion hc.2)]
            exact List.count_eq_zero.mpr
              (hznotF s.undecided (Or.inr (Or.inr rfl)))
          omega
        · have hA : (castAttendees s z m ScheduleResponse.notAttend).count z
              = 0 := by
            unfold castAttendees
            rw [if_neg (fun hc => ScheduleResponse.noConfusion hc.2)]
            exact List.count_eq_zero.mpr (hznotF s.attendees (Or.inl rfl))
          have hU : (castUndecided s z m ScheduleResponse.notAttend).count z
              = 0 := by
            unfold castUndecided
            rw [if_neg (fun hc => ScheduleResponse.noConfusion hc.2)]
            exact List.count_eq_zero.mpr
              (hznotF s.undecided (Or.inr (Or.inr rfl)))
          omega
        · have hA : (castAttendees s z m ScheduleResponse.undecided).count z
              = 0 := by
            unfold castAttendees
            rw [if_neg (fun hc => ScheduleResponse.noConfusion hc.2)]
            exact List.count_eq_zero.mpr (hznotF s.attendees (Or.inl rfl))
          have hN : (castNotAttendees s z m ScheduleResponse.undecided).count z
              = 0 := by
            unfold castNotAttendees
            rw [if_neg (fun hc => ScheduleResponse.noConfusion hc.2)]
            exact List.count_eq_zero.mpr
              (hznotF s.notAttendees (Or.inr (Or.inl rfl)))
          omega
      have himpA : ((castAttendees s z m r).filter (fun u =>
          lookupA (rebuildNames s.attendeeDisplayNames z m
            (castAllUids s z m r)) u = some m)).length ≤
          ((castAttendees s z m r).filter (fun u => u == z)).length := by
        apply length_filter_le_of_imp
        intro x hx hpx
        simp only [decide_eq_true_eq] at hpx
        rcases (castNames_char (hAconc x hx)).mp hpx with ⟨hxz, _⟩ |
            ⟨hxz, _, hlook⟩
        · simp [hxz]
        · exfalso
          rcases mem_castAttendees.mp hx with ⟨_, hno⟩ | ⟨_, _, hz2⟩
          · exact hno hlook
          · exact hxz hz2
      have himpN : ((castNotAttendees s z m r).filter (fun u =>
          lookupA (rebuildNames s.attendeeDisplayNames z m
            (castAllUids s z m r)) u = some m)).length ≤
          ((castNotAttendees s z m r).filter (fun u => u == z)).length := by
        apply length_filter_le_of_imp
        intro x hx hpx
        simp only [decide_eq_true_eq] at hpx
        rcases (castNames_char (hNconc x hx)).mp hpx with ⟨hxz, _⟩ |
            ⟨hxz, _, hlook⟩
        · simp [hxz]
        · exfalso
          rcases mem_castNotAttendees.mp hx with ⟨_, hno⟩ | ⟨_, _, hz2⟩
          · exact hno hlook
          · exact hxz hz2
      have himpU : ((castUndecided s z m r).filter (fun u =>
          lookupA (rebuildNames s.attendeeDisplayNames z m
            (castAllUids s z m r)) u = some m)).length ≤
          ((castUndecided s z m r).filter (fun u => u == z)).length := by
        apply length_filter_le_of_imp
        intro x hx hpx
        simp only [decide_eq_true_eq] at hpx
        rcases (castNames_char (hUconc x hx)).mp hpx with ⟨hxz, _⟩ |
            ⟨hxz, _, hlook⟩
        · simp [hxz]
        · exfalso
          rcases mem_castUndecided.mp hx with ⟨_, hno⟩ | ⟨_, _, hz2⟩
          · exact hno hlook
          · exact hxz hz2
      have heqA := count_eq_length_filter_eq (castAttendees s z m r) z
      have heqN := count_eq_length_filter_eq (castNotAttendees s z m r) z
      have heqU := count_eq_length_filter_eq (castUndecided s z m r) z
      omega
    · have hboundA : ((castAttendees s z n r).filter (fun u =>
          lookupA (rebuildNames s.attendeeDisplayNames z n
            (castAllUids s z n r)) u = some m)).length ≤
          (s.attendees.filter (fun u =>
            lookupA s.attendeeDisplayNames u = some m)).length := by
        have h1 : ((castAttendees s z n r).filter (fun u =>
            lookupA (rebuildNames s.attendeeDisplayNames z n
              (castAllUids s z n r)) u = some m)).length ≤
            ((castAttendees s z n r).filter (fun u =>
              decide (¬ u = z ∧
                lookupA s.attendeeDisplayNames u = some m))).length := by
          apply length_filter_le_of_imp
          intro x hx hpx
          simp only [decide_eq_true_eq] at hpx ⊢
          rcases (castNames_char (hAconc x hx)).mp hpx with ⟨_, hc⟩ |
              ⟨hxz, _, hlook⟩
          · exact absurd hc hmn
          · exact ⟨hxz, hlook⟩
        have h2 : ((castAttendees s z n r).filter (fun u =>
            decide (¬ u = z ∧
              lookupA s.attendeeDisplayNames u = some m))).length ≤
            ((removeByName s.attendeeDisplayNames n s.attendees).filter
              (fun u => decide (¬ u = z ∧
                lookupA s.attendeeDisplayNames u = some m))).length := by
          unfold castAttendees
          split
          · rw [List.filter_append]
            have hz1 : ([z].filter (fun u => decide (¬ u = z ∧
                lookupA s.attendeeDisplayNames u = some m))) = [] := by
              rw [List.filter_eq_nil_iff]
              intro a ha
              rw [List.mem_singleton] at ha
              subst ha
              simp
            rw [hz1, List.append_nil]
          · exact Nat.le_refl _
        have h3 : ((removeByName s.attendeeDisplayNames n s.attendees).filter
            (fun u => decide (¬ u = z ∧
              lookupA s.attendeeDisplayNames u = some m))).length ≤
            ((removeByName s.attendeeDisplayNames n s.attendees).filter
              (fun u => lookupA s.attendeeDisplayNames u = some m)).length := by
          apply length_filter_le_of_imp
          intro x _ hx
          simp only [decide_eq_true_eq] at hx ⊢
          exact hx.2
        have h4 : ((removeByName s.attendeeDisplayNames n s.attendees).filter
            (fun u => lookupA s.attendeeDisplayNames u = some m)).length ≤
            (s.attendees.filter (fun u =>
              lookupA s.attendeeDisplayNames u = some m)).length := by
          have hsub : List.Sublist
              (removeByName s.attendeeDisplayNames n s.attendees)
              s.attendees := List.filter_sublist _
          exact (hsub.filter _).length_le
        omega
      have hboundN : ((castNotAttendees s z n r).filter (fun u =>
          lookupA (rebuildNames s.attendeeDisplayNames z n
            (castAllUids s z n r)) u = some m)).length ≤
          (s.notAttendees.filter (fun u =>
            lookupA s.attendeeDisplayNames u = some m)).length := by
        have h1 : ((castNotAttendees s z n r).filter (fun u =>
            lookupA (rebuildNames s.attendeeDisplayNames z n
              (castAllUids s z n r)) u = some m)).length ≤
            ((castNotAttendees s z n r).filter (fun u =>
              decide (¬ u = z ∧
                lookupA s.attendeeDisplayNames u = some m))).length := by
          apply length_filter_le_of_imp
          intro x hx hpx
          simp only [decide_eq_true_eq] at hpx ⊢
          rcases (castNames_char (hNconc x hx)).mp hpx with ⟨_, hc⟩ |
              ⟨hxz, _, hlook⟩
          · exact absurd hc hmn
          · exact ⟨hxz, hlook⟩
        have h2 : ((castNotAttendees s z n r).filter (fun u =>
            decide (¬ u = z ∧
              lookupA s.attendeeDisplayNames u = some m))).length ≤
            ((removeByName s.attendeeDisplayNames n s.notAttendees).filter
              (fun u => decide (¬ u = z ∧
                lookupA s.attendeeDisplayNames u = some m))).length := by
          unfold castNotAttendees
          split
          · rw [List.filter_append]
            have hz1 : ([z].filter (fun u => decide (¬ u = z ∧
                lookupA s.attendeeDisplayNames u = some m))) = [] := by
              rw [List.filter_eq_nil_iff]
              intro a ha
              rw [List.mem_singleton] at ha
              subst ha
              simp
            rw [hz1, List.append_nil]
          · exact Nat.le_refl _
        have h3 : ((removeByName s.attendeeDisplayNames n s.notAttendees).filter
            (fun u => decide (¬ u = z ∧
              lookupA s.attendeeDisplayNames u = some m))).length ≤
            ((removeByName s.attendeeDisplayNames n s.notAttendees).filter
              (fun u => lookupA s.attendeeDisplayNames u = some m)).length := by
          apply length_filter_le_of_imp
          intro x _ hx
          simp only [decide_eq_true_eq] at hx ⊢
          exact hx.2
        have h4 : ((removeByName s.attendeeDisplayNames n s.notAttendees).filter
            (fun u => lookupA s.attendeeDisplayNames u = some m)).length ≤
            (s.notAttendees.filter (fun u =>
              lookupA s.attendeeDisplayNames u = some m)).length := by
          have hsub : List.Sublist
              (removeByName s.attendeeDisplayNames n s.notAttendees)
              s.notAttendees := List.filter_sublist _
          exact (hsub.filter _).length_le
        omega
      have hboundU : ((castUndecided s z n r).filter (fun u =>
          lookupA (rebuildNames s.attendeeDisplayNames z n
            (castAllUids s z n r)) u = some m)).length ≤
          (s.undecided.filter (fun u =>
            lookupA s.attendeeDisplayNames u = some m)).length := by
        have h1 : ((castUndecided s z n r).filter (fun u =>
            lookupA (rebuildNames s.attendeeDisplayNames z n
              (castAllUids s z n r)) u = some m)).length ≤
            ((castUndecided s z n r).filter (fun u =>
              decide (¬ u = z ∧
                lookupA s.attendeeDisplayNames u = some m))).length := by
          apply length_filter_le_of_imp
          intro x hx hpx
          simp only [decide_eq_true_eq] at hpx ⊢
          rcases (castNames_char (hUconc x hx)).mp hpx with ⟨_, hc⟩ |
              ⟨hxz, _, hlook⟩
          · exact absurd hc hmn
          · exact ⟨hxz, hlook⟩
        have h2 : ((castUndecided s z n r).filter (fun u =>
            decide (¬ u = z ∧
              lookupA s.attendeeDisplayNames u = some m))).length ≤
            ((removeByName s.attendeeDisplayNames n s.undecided).filter
              (fun u => decide (¬ u = z ∧
                lookupA s.attendeeDisplayNames u = some m))).length := by
          unfold castUndecided
          split
          · rw [List.filter_append]
            have hz1 : ([z].filter (fun u => decide (¬ u = z ∧
                lookupA s.attendeeDisplayNames u = some m))) = [] := by
              rw [List.filter_eq_nil_iff]
              intro a ha
              rw [List.mem_singleton] at ha
              subst ha
              simp
            rw [hz1, List.append_nil]
          · exact Nat.le_refl _
        have h3 : ((removeByName s.attendeeDisplayNames n s.undecided).filter
            (fun u => decide (¬ u = z ∧
              lookupA s.attendeeDisplayNames u = some m))).length ≤
            ((removeByName s.attendeeDisplayNames n s.undecided).filter
              (fun u => lookupA s.attendeeDisplayNames u = some m)).length := by
          apply length_filter_le_of_imp
          intro x _ hx
          simp only [decide_eq_true_eq] at hx ⊢
          exact hx.2
        have h4 : ((removeByName s.attendeeDisplayNames n s.undecided).filter
            (fun u => lookupA s.attendeeDisplayNames u = some m)).length ≤
            (s.undecided.filter (fun u =>
              lookupA s.attendeeDisplayNames u = some m)).length := by
          have hsub : List.Sublist
              (removeByName s.attendeeDisplayNames n s.undecided)
              s.undecided := List.filter_sublist _
          exact (hsub.filter _).length_le
        omega
      have hnc := hone m
      unfold nameCount at hnc
      rw [List.filter_append, List.filter_append, List.length_append,
        List.length_append] at hnc
      omega

/-- An event with no responses yet. -/
def emptyEvent : Schedule :=
  { id := "s5", title := "t", date := "d"
    attendees := [], notAttendees := [], undecided := []
    attendeeDisplayNames := [] }

/-- An event with a single attendee a recorded under 지운. -/
def collapseEvent : Schedule :=
  { id := "s6", title := "t", date := "d"
    attendees := ["a"], notAttendees := [], undecided := []
    attendeeDisplayNames := [("a", "지운")] }

/-- Witness for C4 at concrete inputs. -/
theorem c4_disjoint_witness :
    rsvpDisjoint (castResponse emptyEvent "u" "A" ScheduleResponse.attend) ∧
    ∀ m, nameCount (castResponse emptyEvent "u" "A"
      ScheduleResponse.attend) m ≤ 1 :=
  c4_disjoint_preserved emptyEvent "u" "A" ScheduleResponse.attend
    (by decide) (by decide) (fun _ => Nat.zero_le 1)
    (fun h => absurd h (by decide))

/-- C6 amended: identity collapse holds under the maintained invariants:
if A attends under 지운, no member of notAttending is recorded under
지운 (the one-slot-per-name invariant guarantees this), and B is a
fresh identity absent from every set, then castResponse with B, 지운
and notAttend removes A from all three sets and from the display-name
map and leaves exactly B, recorded under notAttend. -/
theorem c6_identity_collapse (s : Schedule) (A B : String)
    (hA : A ∈ s.attendees)
    (hAname : lookupA s.attendeeDisplayNames A = some "지운")
    (hBA : ¬ B = A)
    (hnoN : ∀ u ∈ s.notAttendees,
      ¬ lookupA s.attendeeDisplayNames u = some "지운")
    (hBfreshA : ¬ B ∈ s.attendees) (hBfreshN : ¬ B ∈ s.notAttendees)
    (hBfreshU : ¬ B ∈ s.undecided) :
    ¬ A ∈ (castResponse s B "지운" ScheduleResponse.notAttend).attendees ∧
    ¬ A ∈ (castResponse s B "지운" ScheduleResponse.notAttend).notAttendees ∧
    ¬ A ∈ (castResponse s B "지운" ScheduleResponse.notAttend).undecided ∧
    lookupA (castResponse s B "지운"
      ScheduleResponse.notAttend).attendeeDisplayNames A = none ∧
    B ∈ (castResponse s B "지운" ScheduleResponse.notAttend).notAttendees ∧
    ¬ B ∈ (castResponse s B "지운" ScheduleResponse.notAttend).attendees ∧
    ¬ B ∈ (castResponse s B "지운" ScheduleResponse.notAttend).undecided ∧
    lookupA (castResponse s B "지운"
      ScheduleResponse.notAttend).attendeeDisplayNames B = some "지운" := by
  have hn : ¬ ("지운" : String) = "" := by decide
  have hcast : castResponse s B "지운" ScheduleResponse.notAttend =
      { s with
        attendees := castAttendees s B "지운" ScheduleResponse.notAttend
        notAttendees := castNotAttendees s B "지운" ScheduleResponse.notAttend
        undecided := castUndecided s B "지운" ScheduleResponse.notAttend
        attendeeDisplayNames := rebuildNames s.attendeeDisplayNames B "지운"
          (castAllUids s B "지운" ScheduleResponse.notAttend) } := by
    unfold castResponse
    rw [if_neg hn]
  have hwas : wasAlreadySelected s "지운" ScheduleResponse.notAttend =
      false := by
    unfold wasAlreadySelected hasName
    rw [List.any_eq_false]
    intro u hu
    simpa using hnoN u hu
  have hnotA : ¬ A ∈ castAttendees s B "지운" ScheduleResponse.notAttend := by
    intro h
    rcases mem_castAttendees.mp h with ⟨_, hno⟩ | ⟨_, hr, _⟩
    · exact hno hAname
    · cases hr
  have hnotN : ¬ A ∈ castNotAttendees s B "지운"
      ScheduleResponse.notAttend := by
    intro h
    rcases mem_castNotAttendees.mp h with ⟨hmem, _⟩ | ⟨_, _, hz⟩
    · exact hnoN A hmem hAname
    · exact hBA hz.symm
  have hnotU : ¬ A ∈ castUndecided s B "지운" ScheduleResponse.notAttend := by
    intro h
    rcases mem_castUndecided.mp h with ⟨_, hno⟩ | ⟨_, hr, _⟩
    · exact hno hAname
    · cases hr
  have hAallUids : ¬ A ∈ castAllUids s B "지운" ScheduleResponse.notAttend := by
    intro h
    rcases List.mem_append.mp (mem_castAllUids.mp h) with h2 | h2
    · rcases List.mem_append.mp h2 with h3 | h3
      · exact hnotA h3
      · exact hnotN h3
    · exact hnotU h2
  have hBinN : B ∈ castNotAttendees s B "지운" ScheduleResponse.notAttend :=
    mem_castNotAttendees.mpr (Or.inr ⟨hwas, rfl, rfl⟩)
  have hBallUids : B ∈ castAllUids s B "지운" ScheduleResponse.notAttend :=
    mem_castAllUids.mpr (List.mem_append.mpr
      (Or.inl (List.mem_append.mpr (Or.inr hBinN))))
  rw [hcast]
  refine ⟨hnotA, hnotN, hnotU, ?_, hBinN, ?_, ?_, ?_⟩
  · show lookupA (rebuildNames s.attendeeDisplayNames B "지운"
      (castAllUids s B "지운" ScheduleResponse.notAttend)) A = none
    rw [lookupA_rebuildNames, if_neg hAallUids]
  · intro h
    rcases mem_castAttendees.mp h with ⟨hmem, _⟩ | ⟨_, hr, _⟩
    · exact hBfreshA hmem
    · cases hr
  · intro h
    rcases mem_castUndecided.mp h with ⟨hmem, _⟩ | ⟨_, hr, _⟩
    · exact hBfreshU hmem
    · cases hr
  · show lookupA (rebuildNames s.attendeeDisplayNames B "지운"
      (castAllUids s B "지운" ScheduleResponse.notAttend)) B = some "지운"
    rw [lookupA_rebuildNames, if_pos hBallUids, if_pos rfl]

/-- Witness for C6 at concrete inputs. -/
theorem c6_identity_collapse_witness :
    ¬ "a" ∈ (castResponse collapseEvent "b" "지운"
      ScheduleResponse.notAttend).attendees ∧
    ¬ "a" ∈ (castResponse collapseEvent "b" "지운"
      ScheduleResponse.notAttend).notAttendees ∧
    ¬ "a" ∈ (castResponse collapseEvent "b" "지운"
      ScheduleResponse.notAttend).undecided ∧
    lookupA (castResponse collapseEvent "b" "지운"
      ScheduleResponse.notAttend).attendeeDisplayNames "a" = none ∧
    "b" ∈ (castResponse collapseEvent "b" "지운"
      ScheduleResponse.notAttend).notAttendees ∧
    ¬ "b" ∈ (castResponse collapseEvent "b" "지운"
      ScheduleResponse.notAttend).attendees ∧
    ¬ "b" ∈ (castResponse collapseEvent "b" "지운"
      ScheduleResponse.notAttend).undecided ∧
    lookupA (castResponse collapseEvent "b" "지운"
      ScheduleResponse.notAttend).attendeeDisplayNames "b" = some "지운" :=
  c6_identity_collapse collapseEvent "a" "b" (by decide) (by decide)
    (by decide) (by decide) (by decide) (by decide) (by decide)

/-- C2 amended: the counting equalities are preserved by every vote
operation on a well-formed poll, for a clicked optionId present in the
option list and an acting identity not recorded under a different
display name.  All three extra conditions are necessary: clamping
during the purge breaks the equalities on polls whose per-option
counters do not count their selectors, an unknown optionId increments
totalVotes without touching any counter, and in single-select mode an
acting identity recorded under another name has its selection erased
while its counted votes survive. -/
theorem c2_invariant_preserved (p : Poll) (z n q : String)
    (hWF : PollWF p) (hn : ¬ n = "")
    (hq : q ∈ p.options.map (·.id))
    (hzname : ∀ m, lookupA p.voterDisplayNames z = some m → m = n) :
    (handleVote p z n q).totalVotes = sumVotes (handleVote p z n q) ∧
    sumVotes (handleVote p z n q) = sumSelections (handleVote p z n q) := by
  have hlenf := sum_purgedOptions p n hWF
  have hids : (purgedOptions p n).map (·.id) = p.options.map (·.id) :=
    purgedOptions_map_id p n hWF.idsNodup
  have hidsN : ((purgedOptions p n).map (·.id)).Nodup := by
    rw [hids]
    exact hWF.idsNodup
  have hqP : q ∈ (purgedOptions p n).map (·.id) := by
    rw [hids]
    exact hq
  have hCNodup := nodup_cleanVotedUsers p n hWF.usersNodup
  have hcleanOmap := cleanVotedUserOpts_eq_map p n hWF.userSelNonempty
  have hcleanSum : ((cleanVotedUserOpts p n).map (fun e => e.2.length)).sum =
      ((cleanVotedUsers p n).map
        (fun u => ((lookupA p.votedUserOptions u).getD []).length)).sum := by
    rw [hcleanOmap, List.map_map]
    rfl
  by_cases hm : p.allowMultiple = true
  · have hv : handleVote p z n q = handleVoteMulti p z n q := by
      unfold handleVote
      rw [if_neg hn, if_pos hm]
    have hTot : (handleVoteMulti p z n q).totalVotes =
        (if q ∈ effectiveSelectedIds p z n then
          ((purgedOptions p n).map (·.votes)).sum - 1
        else ((purgedOptions p n).map (·.votes)).sum + 1) := rfl
    have hVUO : (handleVoteMulti p z n q).votedUserOptions =
        setA (cleanVotedUserOpts p n) z (multiNewSelectedIds p z n q) := rfl
    by_cases hav : q ∈ effectiveSelectedIds p z n
    · have hzC : z ∈ cleanVotedUsers p n ∧
          q ∈ (lookupA p.votedUserOptions z).getD [] := by
        rw [effectiveSelectedIds_eq] at hav
        by_cases hc : z ∈ cleanVotedUsers p n
        · rw [if_pos hc] at hav
          exact ⟨hc, hav⟩
        · rw [if_neg hc] at hav
          cases hav
      have hzV : z ∈ p.votedUsers := (mem_cleanVotedUsers.mp hzC.1).1
      have hselq : 1 ≤ selCount (cleanVotedUsers p n) p.votedUserOptions q := by
        unfold selCount
        have hterm : ((lookupA p.votedUserOptions z).getD []).count q ∈
            (cleanVotedUsers p n).map
              (fun u => ((lookupA p.votedUserOptions u).getD []).count q) :=
          List.mem_map.mpr ⟨z, hzC.1, rfl⟩
        have h1 : 1 ≤ ((lookupA p.votedUserOptions z).getD []).count q :=
          List.count_pos_iff.mpr hzC.2
        exact le_trans h1
          (List.single_le_sum (fun x _ => Nat.zero_le x) _ hterm)
      have hpos : ∀ opt ∈ purgedOptions p n, opt.id = q → 1 ≤ opt.votes := by
        intro opt hmem hid
        rw [purgedOptions_eq_selCount p n hWF] at hmem
        rcases List.mem_map.mp hmem with ⟨opt0, hopt0, rfl⟩
        show 1 ≤ selCount (cleanVotedUsers p n) p.votedUserOptions opt0.id
        have hid0 : opt0.id = q := hid
        rw [hid0]
        exact hselq
      have hdec := sum_map_dec (purgedOptions p n) q hidsN hqP hpos
      have hfun : (fun opt : PollOption => if opt.id = q then
          { opt with votes := if q ∈ effectiveSelectedIds p z n then
              opt.votes - 1 else opt.votes + 1 } else opt) =
          (fun opt : PollOption => if opt.id = q then
            { opt with votes := opt.votes - 1 } else opt) := by
        funext opt
        rw [if_pos hav]
      have hOpt : (handleVote p z n q).options = (purgedOptions p n).map
          (fun opt => if opt.id = q then
            { opt with votes := opt.votes - 1 } else opt) := by
        rw [hv]
        show ((purgedOptions p n).map (fun opt => if opt.id = q then
          { opt with votes := if q ∈ effectiveSelectedIds p z n then
              opt.votes - 1 else opt.votes + 1 } else opt)) = _
        rw [hfun]
      have hSumV : sumVotes (handleVote p z n q) + 1 =
          ((purgedOptions p n).map (·.votes)).sum := by
        unfold sumVotes
        rw [hOpt]
        exact hdec
      have hTot2 : (handleVote p z n q).totalVotes =
          ((purgedOptions p n).map (·.votes)).sum - 1 := by
        rw [hv, hTot, if_pos hav]
      have hnodupz := hWF.userSelNodup z hzV
      have hlen : (multiNewSelectedIds p z n q).length + 1 =
          ((lookupA p.votedUserOptions z).getD []).length := by
        unfold multiNewSelectedIds
        rw [if_pos hav, effectiveSelectedIds_eq, if_pos hzC.1]
        have hsplit := @List.length_eq_length_filter_add String
          ((lookupA p.votedUserOptions z).getD [])
          (fun i => decide (i ≠ q))
        have hfeq : (fun i : String => !(decide (i ≠ q))) =
            (fun i : String => i == q) := by
          funext i
          by_cases hiq : i = q
          · simp [hiq]
          · simp [hiq]
        rw [hfeq] at hsplit
        have hcnt := count_eq_length_filter_eq
          ((lookupA p.votedUserOptions z).getD []) q
        have hone := List.count_eq_one_of_mem hnodupz hzC.2
        omega
      have hSel : sumSelections (handleVote p z n q) +
          ((lookupA p.votedUserOptions z).getD []).length =
          ((cleanVotedUsers p n).map
            (fun u => ((lookupA p.votedUserOptions u).getD []).length)).sum +
          (multiNewSelectedIds p z n q).length := by
        unfold sumSelections
        rw [hv, hVUO, hcleanOmap, setA_map_of_mem _ _ _ _ hzC.1]
        have hmm2 : ((cleanVotedUsers p n).map (fun u =>
            if u = z then (z, multiNewSelectedIds p z n q)
            else (u, (lookupA p.votedUserOptions u).getD []))).map
              (fun e => e.2.length) =
            (cleanVotedUsers p n).map (fun u =>
              if u = z then (multiNewSelectedIds p z n q).length
              else ((lookupA p.votedUserOptions u).getD []).length) := by
          rw [List.map_map]
          apply List.map_congr_left
          intro u _
          by_cases huz : u = z
          · simp [huz]
          · simp [huz]
        rw [hmm2]
        have hpw := sum_map_pointwise (cleanVotedUsers p n) hCNodup z hzC.1
          (fun u => ((lookupA p.votedUserOptions u).getD []).length)
          (fun u => if u = z then (multiNewSelectedIds p z n q).length
            else ((lookupA p.votedUserOptions u).getD []).length)
          (fun u _ huz => if_neg huz)
        simp only [if_true, eq_self_iff_true] at hpw
        exact hpw
      constructor
      · omega
      · omega
    · have hinc := sum_map_inc (purgedOptions p n) q hidsN hqP
      have hfun : (fun opt : PollOption => if opt.id = q then
          { opt with votes := if q ∈ effectiveSelectedIds p z n then
              opt.votes - 1 else opt.votes + 1 } else opt) =
          (fun opt : PollOption => if opt.id = q then
            { opt with votes := opt.votes + 1 } else opt) := by
        funext opt
        rw [if_neg hav]
      have hOpt : (handleVote p z n q).options = (purgedOptions p n).map
          (fun opt => if opt.id = q then
            { opt with votes := opt.votes + 1 } else opt) := by
        rw [hv]
        show ((purgedOptions p n).map (fun opt => if opt.id = q then
          { opt with votes := if q ∈ effectiveSelectedIds p z n then
              opt.votes - 1 else opt.votes + 1 } else opt)) = _
        rw [hfun]
      have hSumV : sumVotes (handleVote p z n q) =
          ((purgedOptions p n).map (·.votes)).sum + 1 := by
        unfold sumVotes
        rw [hOpt]
        exact hinc
      have hTot2 : (handleVote p z n q).totalVotes =
          ((purgedOptions p n).map (·.votes)).sum + 1 := by
        rw [hv, hTot, if_neg hav]
      have hnewSel : multiNewSelectedIds p z n q =
          effectiveSelectedIds p z n ++ [q] := by
        unfold multiNewSelectedIds
        rw [if_neg hav]
      by_cases hzC : z ∈ cleanVotedUsers p n
      · have heffz : effectiveSelectedIds p z n =
            (lookupA p.votedUserOptions z).getD [] := by
          rw [effectiveSelectedIds_eq, if_pos hzC]
        have hlen : (multiNewSelectedIds p z n q).length =
            ((lookupA p.votedUserOptions z).getD []).length + 1 := by
          rw [hnewSel, heffz, List.length_append]
          rfl
        have hSel : sumSelections (handleVote p z n q) +
            ((lookupA p.votedUserOptions z).getD []).length =
            ((cleanVotedUsers p n).map
              (fun u => ((lookupA p.votedUserOptions u).getD []).length)).sum +
            (multiNewSelectedIds p z n q).length := by
          unfold sumSelections
          rw [hv, hVUO, hcleanOmap, setA_map_of_mem _ _ _ _ hzC]
          have hmm2 : ((cleanVotedUsers p n).map (fun u =>
              if u = z then (z, multiNewSelectedIds p z n q)
              else (u, (lookupA p.votedUserOptions u).getD []))).map
                (fun e => e.2.length) =
              (cleanVotedUsers p n).map (fun u =>
                if u = z then (multiNewSelectedIds p z n q).length
                else ((lookupA p.votedUserOptions u).getD []).length) := by
            rw [List.map_map]
            apply List.map_congr_left
            intro u _
            by_cases huz : u = z
            · simp [huz]
            · simp [huz]
          rw [hmm2]
          have hpw := sum_map_pointwise (cleanVotedUsers p n) hCNodup z hzC
            (fun u => ((lookupA p.votedUserOptions u).getD []).length)
            (fun u => if u = z then (multiNewSelectedIds p z n q).length
              else ((lookupA p.votedUserOptions u).getD []).length)
            (fun u _ huz => if_neg huz)
          simp only [if_true, eq_self_iff_true] at hpw
          exact hpw
        constructor
        · omega
        · omega
      · have heffz : effectiveSelectedIds p z n = [] := by
          rw [effectiveSelectedIds_eq, if_neg hzC]
        have hlen : (multiNewSelectedIds p z n q).length = 1 := by
          rw [hnewSel, heffz]
          rfl
        have hkeys : ∀ e ∈ cleanVotedUserOpts p n, ¬ e.1 = z := by
          intro e he hez
          rw [hcleanOmap] at he
          rcases List.mem_map.mp he with ⟨u, hu, rfl⟩
          exact hzC (hez ▸ hu)
        have hSel : sumSelections (handleVote p z n q) =
            ((cleanVotedUsers p n).map
              (fun u => ((lookupA p.votedUserOptions u).getD []).length)).sum +
            (multiNewSelectedIds p z n q).length := by
          unfold sumSelections
          rw [hv, hVUO, setA_of_not_mem_keys _ _ _ hkeys, List.map_append,
            List.sum_append, hcleanSum]
          rfl
        constructor
        · omega
        · omega
  · have hv : handleVote p z n q = handleVoteSingle p z n q := by
      unfold handleVote
      rw [if_neg hn, if_neg hm]
    have hznotC : ¬ z ∈ cleanVotedUsers p n := by
      intro hc
      have hzV := (mem_cleanVotedUsers.mp hc).1
      have hzR := (mem_cleanVotedUsers.mp hc).2
      have hname := hWF.userNamed z hzV
      rcases ho : lookupA p.voterDisplayNames z with _ | m2
      · rw [ho] at hname
        exact hname rfl
      · have hmn2 : m2 = n := hzname m2 ho
        apply hzR
        rw [mem_uidsToRemove_lookup hWF.namesKeysNodup, ho, hmn2]
    have heffz : effectiveSelectedIds p z n = [] := by
      rw [effectiveSelectedIds_eq, if_neg hznotC]
    have hkeys : ∀ e ∈ cleanVotedUserOpts p n, ¬ e.1 = z := by
      intro e he hez
      rw [hcleanOmap] at he
      rcases List.mem_map.mp he with ⟨u, hu, rfl⟩
      exact hznotC (hez ▸ hu)
    by_cases hsame : singlePrevOptionId p n = some q
    · have hres : handleVoteSingle p z n q =
          { p with
            options := purgedOptions p n
            totalVotes := ((purgedOptions p n).map (·.votes)).sum
            votedUserOptions := eraseA (cleanVotedUserOpts p n) z
            votedUsers := (cleanVotedUsers p n).filter (fun i => i ≠ z)
            voterDisplayNames := eraseA (cleanVoterNames p n) z } := by
        unfold handleVoteSingle
        rw [if_pos hsame]
      have herase : eraseA (cleanVotedUserOpts p n) z =
          cleanVotedUserOpts p n := by
        unfold eraseA
        rw [List.filter_eq_self]
        intro e he
        simpa using hkeys e he
      have hSumV : sumVotes (handleVote p z n q) =
          ((purgedOptions p n).map (·.votes)).sum := by
        unfold sumVotes
        rw [hv, hres]
      have hTot2 : (handleVote p z n q).totalVotes =
          ((purgedOptions p n).map (·.votes)).sum := by
        rw [hv, hres]
      have hSel : sumSelections (handleVote p z n q) =
          ((cleanVotedUsers p n).map
            (fun u => ((lookupA p.votedUserOptions u).getD []).length)).sum := by
        unfold sumSelections
        rw [hv, hres]
        show ((eraseA (cleanVotedUserOpts p n) z).map
          (fun e => e.2.length)).sum = _
        rw [herase, hcleanSum]
      constructor
      · omega
      · omega
    · have hchanging : ¬ singleIsChanging p z n := by
        intro hc
        have := hc.1
        rw [heffz] at this
        simp at this
      have hres : handleVoteSingle p z n q =
          { p with
            options := (purgedOptions p n).map (fun opt =>
              if opt.id = q then { opt with votes := opt.votes + 1 } else opt)
            totalVotes := ((purgedOptions p n).map (·.votes)).sum + 1
            votedUserOptions := setA (cleanVotedUserOpts p n) z [q]
            votedUsers :=
              if z ∈ cleanVotedUsers p n then cleanVotedUsers p n
              else cleanVotedUsers p n ++ [z]
            voterDisplayNames := setA (cleanVoterNames p n) z n } := by
        unfold handleVoteSingle
        rw [if_neg hsame, if_neg hchanging, if_neg hchanging]
      have hinc := sum_map_inc (purgedOptions p n) q hidsN hqP
      have hSumV : sumVotes (handleVote p z n q) =
          ((purgedOptions p n).map (·.votes)).sum + 1 := by
        unfold sumVotes
        rw [hv, hres]
        exact hinc
      have hTot2 : (handleVote p z n q).totalVotes =
          ((purgedOptions p n).map (·.votes)).sum + 1 := by
        rw [hv, hres]
      have hSel : sumSelections (handleVote p z n q) =
          ((cleanVotedUsers p n).map
            (fun u => ((lookupA p.votedUserOptions u).getD []).length)).sum
            + 1 := by
        unfold sumSelections
        rw [hv, hres]
        show ((setA (cleanVotedUserOpts p n) z [q]).map
          (fun e => e.2.length)).sum = _
        rw [setA_of_not_mem_keys _ _ _ hkeys, List.map_append,
          List.sum_append, hcleanSum]
        rfl
      constructor
      · omega
      · omega

/-- A well-formed multi-select poll: voter v selected o1 and the
counters agree. -/
def wfMultiPoll : Poll :=
  { id := "p7", question := "q"
    options := [{ id := "o1", text := "A", votes := 1 },
                { id := "o2", text := "B", votes := 0 }]
    totalVotes := 1, votedUsers := ["v"], votedUserOptions := [("v", ["o1"])]
    voterDisplayNames := [("v", "N")], allowMultiple := true
    allowAddOptions := false }

/-- Witness for C2 at concrete inputs. -/
theorem c2_invariant_witness :
    (handleVote wfMultiPoll "u" "N" "o1").totalVotes =
      sumVotes (handleVote wfMultiPoll "u" "N" "o1") ∧
    sumVotes (handleVote wfMultiPoll "u" "N" "o1") =
      sumSelections (handleVote wfMultiPoll "u" "N" "o1") :=
  c2_invariant_preserved wfMultiPoll "u" "N" "o1"
    ⟨by decide, by decide, by decide, by decide, by decide, by decide,
     by decide, by decide, by decide, by decide⟩
    (by decide) (by decide) (fun _ h => Option.noConfusion h)

theorem removeByName_eq_self (names : List (String × String)) (n : String)
    (arr : List String)
    (h : ∀ u ∈ arr, ¬ lookupA names u = some n) :
    removeByName names n arr = arr := by
  unfold removeByName
  refine List.filter_eq_self.mpr ?_
  intro u hu
  simp only [decide_eq_true_eq]
  exact h u hu

theorem removeByName_append_one (names : List (String × String)) (n : String)
    (arr : List String) (z : String)
    (h : ∀ u ∈ arr, ¬ lookupA names u = some n)
    (hz : lookupA names z = some n) :
    removeByName names n (arr ++ [z]) = arr := by
  unfold removeByName
  rw [List.filter_append]
  have h1 : arr.filter (fun u => ¬ (lookupA names u = some n)) = arr := by
    refine List.filter_eq_self.mpr ?_
    intro u hu
    simp only [decide_eq_true_eq]
    exact h u hu
  have h2 : [z].filter (fun u => ¬ (lookupA names u = some n)) = [] := by
    simp [hz]
  rw [h1, h2, List.append_nil]

theorem hasName_eq_false (names : List (String × String)) (n : String)
    (arr : List String) :
    hasName names n arr = false ↔
      ∀ u ∈ arr, ¬ lookupA names u = some n := by
  unfold hasName
  rw [List.any_eq_false]
  constructor
  · intro h u hu
    simpa using h u hu
  · intro h u hu
    simpa using h u hu

theorem hasName_eq_true_of (names : List (String × String)) (n : String)
    (arr : List String) (u : String) (hu : u ∈ arr)
    (h : lookupA names u = some n) : hasName names n arr = true := by
  unfold hasName
  rw [List.any_eq_true]
  exact ⟨u, hu, by simpa using h⟩

/-- C7 (amended): for an event in which the acting identity is absent
from all three RSVP sets and no attendee is recorded under the acting
(nonempty) display name, three successive attend calls produce the
attend state, then the not-voted state (identity gone from every set
and from the display-name map), and the third call restores an event
equal to the one after the first call. -/
theorem c7_triple_attend (s : Schedule) (z n : String)
    (hn : ¬ n = "")
    (hzA : ¬ z ∈ s.attendees) (hzN : ¬ z ∈ s.notAttendees)
    (hzU : ¬ z ∈ s.undecided)
    (hatt : ∀ a ∈ s.attendees,
      ¬ lookupA s.attendeeDisplayNames a = some n) :
    z ∈ (castResponse s z n ScheduleResponse.attend).attendees ∧
    (¬ z ∈ (castResponse (castResponse s z n ScheduleResponse.attend) z n
        ScheduleResponse.attend).attendees ∧
      ¬ z ∈ (castResponse (castResponse s z n ScheduleResponse.attend) z n
        ScheduleResponse.attend).notAttendees ∧
      ¬ z ∈ (castResponse (castResponse s z n ScheduleResponse.attend) z n
        ScheduleResponse.attend).undecided ∧
      lookupA (castResponse (castResponse s z n ScheduleResponse.attend) z n
        ScheduleResponse.attend).attendeeDisplayNames z = none) ∧
    castResponse (castResponse (castResponse s z n ScheduleResponse.attend)
        z n ScheduleResponse.attend) z n ScheduleResponse.attend =
      castResponse s z n ScheduleResponse.attend := by
  have hcast : ∀ t : Schedule, castResponse t z n ScheduleResponse.attend =
      { t with
        attendees := castAttendees t z n ScheduleResponse.attend
        notAttendees := castNotAttendees t z n ScheduleResponse.attend
        undecided := castUndecided t z n ScheduleResponse.attend
        attendeeDisplayNames := rebuildNames t.attendeeDisplayNames z n
          (castAllUids t z n ScheduleResponse.attend) } := by
    intro t
    unfold castResponse
    rw [if_neg hn]
  set e1 := castResponse s z n ScheduleResponse.attend with he1def
  set e2 := castResponse e1 z n ScheduleResponse.attend with he2def
  -- the first call
  have hwas1 : wasAlreadySelected s n ScheduleResponse.attend = false := by
    show hasName s.attendeeDisplayNames n s.attendees = false
    exact (hasName_eq_false _ _ _).mpr hatt
  have hA1 : castAttendees s z n ScheduleResponse.attend =
      s.attendees ++ [z] := by
    unfold castAttendees
    rw [if_pos ⟨hwas1, rfl⟩, removeByName_eq_self _ _ _ hatt]
  have hN1 : castNotAttendees s z n ScheduleResponse.attend =
      removeByName s.attendeeDisplayNames n s.notAttendees := by
    unfold castNotAttendees
    rw [if_neg (fun h => ScheduleResponse.noConfusion h.2)]
  have hU1 : castUndecided s z n ScheduleResponse.attend =
      removeByName s.attendeeDisplayNames n s.undecided := by
    unfold castUndecided
    rw [if_neg (fun h => ScheduleResponse.noConfusion h.2)]
  have he1A : e1.attendees = s.attendees ++ [z] := by
    rw [he1def, hcast s]
    exact hA1
  have he1N : e1.notAttendees =
      removeByName s.attendeeDisplayNames n s.notAttendees := by
    rw [he1def, hcast s]
    exact hN1
  have he1U : e1.undecided =
      removeByName s.attendeeDisplayNames n s.undecided := by
    rw [he1def, hcast s]
    exact hU1
  have he1names : e1.attendeeDisplayNames =
      rebuildNames s.attendeeDisplayNames z n
        (castAllUids s z n ScheduleResponse.attend) := by
    rw [he1def, hcast s]
  have hz1 : z ∈ castAllUids s z n ScheduleResponse.attend := by
    rw [mem_castAllUids]
    refine List.mem_append_left _ (List.mem_append_left _ ?_)
    rw [hA1]
    exact List.mem_append_right _ (List.mem_singleton_self z)
  have hmem1 : ∀ x, x ∈ castAllUids s z n ScheduleResponse.attend →
      ¬ x = z →
      (x ∈ s.attendees ∨ x ∈ s.notAttendees ∨ x ∈ s.undecided) ∧
        ¬ lookupA s.attendeeDisplayNames x = some n := by
    intro x hx hxz
    rw [mem_castAllUids, List.mem_append, List.mem_append] at hx
    rcases hx with (hx | hx) | hx
    · rw [mem_castAttendees] at hx
      rcases hx with ⟨hm, hl⟩ | ⟨-, -, hc⟩
      · exact ⟨Or.inl hm, hl⟩
      · exact absurd hc hxz
    · rw [mem_castNotAttendees] at hx
      rcases hx with ⟨hm, hl⟩ | ⟨-, hc, -⟩
      · exact ⟨Or.inr (Or.inl hm), hl⟩
      · exact ScheduleResponse.noConfusion hc
    · rw [mem_castUndecided] at hx
      rcases hx with ⟨hm, hl⟩ | ⟨-, hc, -⟩
      · exact ⟨Or.inr (Or.inr hm), hl⟩
      · exact ScheduleResponse.noConfusion hc
  have hn1z : lookupA e1.attendeeDisplayNames z = some n := by
    rw [he1names, lookupA_rebuildNames, if_pos hz1, if_pos rfl]
  have hn1 : ∀ x, ¬ x = z →
      ¬ lookupA e1.attendeeDisplayNames x = some n := by
    intro x hxz hc
    rw [he1names, lookupA_rebuildNames] at hc
    by_cases hx : x ∈ castAllUids s z n ScheduleResponse.attend
    · rw [if_pos hx, if_neg hxz] at hc
      rcases hl : lookupA s.attendeeDisplayNames x with _ | m
      · rw [hl] at hc
        exact Option.noConfusion hc
      · rw [hl] at hc
        by_cases hm : m = ""
        · rw [hm] at hc
          simp at hc
        · simp only [Option.some_bind, if_neg hm, Option.some.injEq] at hc
          subst hc
          exact (hmem1 x hx hxz).2 hl
    · rw [if_neg hx] at hc
      exact Option.noConfusion hc
  have hzN1 : ¬ z ∈ e1.notAttendees := by
    rw [he1N]
    intro h
    exact hzN (mem_removeByName.mp h).1
  have hzU1 : ¬ z ∈ e1.undecided := by
    rw [he1U]
    intro h
    exact hzU (mem_removeByName.mp h).1
  -- the second call: a toggle-off
  have hwas2 : wasAlreadySelected e1 n ScheduleResponse.attend = true := by
    show hasName e1.attendeeDisplayNames n e1.attendees = true
    refine hasName_eq_true_of _ _ _ z ?_ hn1z
    rw [he1A]
    exact List.mem_append_right _ (List.mem_singleton_self z)
  have hA2 : castAttendees e1 z n ScheduleResponse.attend = s.attendees := by
    unfold castAttendees
    rw [if_neg (fun h => by rw [hwas2] at h; exact Bool.noConfusion h.1)]
    rw [he1A]
    refine removeByName_append_one _ _ _ _ ?_ hn1z
    intro u hu
    exact hn1 u (fun he => hzA (he ▸ hu))
  have hN2 : castNotAttendees e1 z n ScheduleResponse.attend =
      e1.notAttendees := by
    unfold castNotAttendees
    rw [if_neg (fun h => ScheduleResponse.noConfusion h.2)]
    refine removeByName_eq_self _ _ _ ?_
    intro u hu
    exact hn1 u (fun he => hzN1 (he ▸ hu))
  have hU2 : castUndecided e1 z n ScheduleResponse.attend =
      e1.undecided := by
    unfold castUndecided
    rw [if_neg (fun h => ScheduleResponse.noConfusion h.2)]
    refine removeByName_eq_self _ _ _ ?_
    intro u hu
    exact hn1 u (fun he => hzU1 (he ▸ hu))
  have he2A : e2.attendees = s.attendees := by
    rw [he2def, hcast e1]
    exact hA2
  have he2N : e2.notAttendees = e1.notAttendees := by
    rw [he2def, hcast e1]
    exact hN2
  have he2U : e2.undecided = e1.undecided := by
    rw [he2def, hcast e1]
    exact hU2
  have he2names : e2.attendeeDisplayNames =
      rebuildNames e1.attendeeDisplayNames z n
        (castAllUids e1 z n ScheduleResponse.attend) := by
    rw [he2def, hcast e1]
  have hz2 : ¬ z ∈ castAllUids e1 z n ScheduleResponse.attend := by
    rw [mem_castAllUids, List.mem_append, List.mem_append]
    rintro ((h | h) | h)
    · rw [hA2] at h
      exact hzA h
    · rw [hN2] at h
      exact hzN1 h
    · rw [hU2] at h
      exact hzU1 h
  have hn2z : lookupA e2.attendeeDisplayNames z = none := by
    rw [he2names, lookupA_rebuildNames, if_neg hz2]
  have hn2 : ∀ x, ¬ lookupA e2.attendeeDisplayNames x = some n := by
    intro x hc
    rw [he2names, lookupA_rebuildNames] at hc
    by_cases hx : x ∈ castAllUids e1 z n ScheduleResponse.attend
    · rw [if_pos hx] at hc
      by_cases hxz : x = z
      · exact hz2 (hxz ▸ hx)
      · rw [if_neg hxz] at hc
        rcases hl : lookupA e1.attendeeDisplayNames x with _ | m
        · rw [hl] at hc
          exact Option.noConfusion hc
        · rw [hl] at hc
          by_cases hm : m = ""
          · rw [hm] at hc
            simp at hc
          · simp only [Option.some_bind, if_neg hm, Option.some.injEq] at hc
            subst hc
            exact hn1 x hxz hl
    · rw [if_neg hx] at hc
      exact Option.noConfusion hc
  -- the third call: a fresh attend again
  have hwas3 : wasAlreadySelected e2 n ScheduleResponse.attend = false := by
    show hasName e2.attendeeDisplayNames n e2.attendees = false
    exact (hasName_eq_false _ _ _).mpr (fun u _ => hn2 u)
  have hA3 : castAttendees e2 z n ScheduleResponse.attend =
      s.attendees ++ [z] := by
    unfold castAttendees
    rw [if_pos ⟨hwas3, rfl⟩,
      removeByName_eq_self _ _ _ (fun u _ => hn2 u), he2A]
  have hN3 : castNotAttendees e2 z n ScheduleResponse.attend =
      e1.notAttendees := by
    unfold castNotAttendees
    rw [if_neg (fun h => ScheduleResponse.noConfusion h.2),
      removeByName_eq_self _ _ _ (fun u _ => hn2 u)]
    exact he2N
  have hU3 : castUndecided e2 z n ScheduleResponse.attend =
      e1.undecided := by
    unfold castUndecided
    rw [if_neg (fun h => ScheduleResponse.noConfusion h.2),
      removeByName_eq_self _ _ _ (fun u _ => hn2 u)]
    exact he2U
  have hUids31 : castAllUids e2 z n ScheduleResponse.attend =
      castAllUids s z n ScheduleResponse.attend := by
    unfold castAllUids
    rw [hA3, hN3, hU3, he1N, he1U, hA1, hN1, hU1]
  have hnames3 : rebuildNames e2.attendeeDisplayNames z n
      (castAllUids e2 z n ScheduleResponse.attend) =
      e1.attendeeDisplayNames := by
    rw [hUids31, he1names]
    unfold rebuildNames
    refine List.filterMap_congr ?_
    intro u hu
    by_cases huz : u = z
    · rw [if_pos huz, if_pos huz]
    · rw [if_neg huz, if_neg huz]
      have hu2 : u ∈ castAllUids e1 z n ScheduleResponse.attend := by
        rw [mem_castAllUids, List.mem_append, List.mem_append]
        obtain ⟨hmem, hnolook⟩ := hmem1 u hu huz
        rcases hmem with h | h | h
        · exact Or.inl (Or.inl (by rw [hA2]; exact h))
        · refine Or.inl (Or.inr ?_)
          rw [hN2, he1N, mem_removeByName]
          exact ⟨h, hnolook⟩
        · refine Or.inr ?_
          rw [hU2, he1U, mem_removeByName]
          exact ⟨h, hnolook⟩
      have h2 : lookupA e2.attendeeDisplayNames u =
          (lookupA e1.attendeeDisplayNames u).bind
            (fun m => if m = "" then none else some m) := by
        rw [he2names, lookupA_rebuildNames, if_pos hu2, if_neg huz]
      have h1 : lookupA e1.attendeeDisplayNames u =
          (lookupA s.attendeeDisplayNames u).bind
            (fun m => if m = "" then none else some m) := by
        rw [he1names, lookupA_rebuildNames, if_pos hu, if_neg huz]
      rw [h2, h1]
      rcases lookupA s.attendeeDisplayNames u with _ | m
      · rfl
      · by_cases hm : m = ""
        · rw [hm]
          simp
        · simp [hm]
  refine ⟨?_, ⟨?_, ?_, ?_, hn2z⟩, ?_⟩
  · rw [he1A]
    exact List.mem_append_right _ (List.mem_singleton_self z)
  · rw [he2A]
    exact hzA
  · rw [he2N]
    exact hzN1
  · rw [he2U]
    exact hzU1
  · rw [hcast e2]
    refine Schedule.ext ?_ ?_ ?_ ?_ ?_ ?_ ?_
    · show e2.id = e1.id
      rw [he2def, hcast e1]
    · show e2.title = e1.title
      rw [he2def, hcast e1]
    · show e2.date = e1.date
      rw [he2def, hcast e1]
    · show castAttendees e2 z n ScheduleResponse.attend = e1.attendees
      rw [hA3, he1A]
    · show castNotAttendees e2 z n ScheduleResponse.attend = e1.notAttendees
      exact hN3
    · show castUndecided e2 z n ScheduleResponse.attend = e1.undecided
      exact hU3
    · show rebuildNames e2.attendeeDisplayNames z n
        (castAllUids e2 z n ScheduleResponse.attend) = e1.attendeeDisplayNames
      exact hnames3

/-- Witness for C7 at concrete inputs: identity b, fresh to the event
and acting under name N, RSVPs attend three times on staleNameEvent. -/
theorem c7_triple_attend_witness :
    "b" ∈ (castResponse staleNameEvent "b" "N"
      ScheduleResponse.attend).attendees ∧
    (¬ "b" ∈ (castResponse (castResponse staleNameEvent "b" "N"
        ScheduleResponse.attend) "b" "N" ScheduleResponse.attend).attendees ∧
      ¬ "b" ∈ (castResponse (castResponse staleNameEvent "b" "N"
        ScheduleResponse.attend) "b" "N"
        ScheduleResponse.attend).notAttendees ∧
      ¬ "b" ∈ (castResponse (castResponse staleNameEvent "b" "N"
        ScheduleResponse.attend) "b" "N" ScheduleResponse.attend).undecided ∧
      lookupA (castResponse (castResponse staleNameEvent "b" "N"
        ScheduleResponse.attend) "b" "N"
        ScheduleResponse.attend).attendeeDisplayNames "b" = none) ∧
    castResponse (castResponse (castResponse staleNameEvent "b" "N"
        ScheduleResponse.attend) "b" "N" ScheduleResponse.attend) "b" "N"
        ScheduleResponse.attend =
      castResponse staleNameEvent "b" "N" ScheduleResponse.attend :=
  c7_triple_attend staleNameEvent "b" "N" (by decide) (by decide) (by decide)
    (by decide) (by decide)

end CleaningTool
